import Mathlib

/-!
A shallow embedding of the `cpu` emulator (`main.go`)

Bytes are natural numbers below 256, the `int16` program pointer is an integer
kept in `[-32768, 32767]` by `wrap16`, slices are lists, and an index that Go
would reject with a run-time panic makes the embedded function return `none`.
A Go `string` is a sequence of bytes, so `new` takes the list of the bytes of
its argument.
-/

namespace Cpu

/-! ## Machine integers -/

/-- Truncation of an integer to `int16`, as Go does on overflow. -/
def wrap16 (x : Int) : Int := (x + 32768) % 65536 - 32768

/-- Truncation of an integer to `byte`, as Go does on overflow. -/
def wrap8 (x : Int) : Nat := (x % 256).toNat

/-! ## `encoding/hex` of the Go standard library -/

/-- The two errors of `hex.DecodeString`: `InvalidByteError` and `ErrLength`. -/
inductive HexError where
  | invalidByte (b : Nat)
  | errLength
  deriving DecidableEq, Repr

/-- The table `reverseHexTable` of `encoding/hex`: the value of a hexadecimal
digit, and `0xff` for every other byte. -/
def reverseHexTable (p : Nat) : Nat :=
  if 48 ≤ p ∧ p ≤ 57 then p - 48
  else if 97 ≤ p ∧ p ≤ 102 then p - 87
  else if 65 ≤ p ∧ p ≤ 70 then p - 55
  else 0xff

/-- The function `hex.DecodeString`: the loop of `hex.Decode` over pairs of
bytes, an invalid byte being reported before a bad length. -/
def decodeString : List Nat → Except HexError (List Nat)
  | [] => .ok []
  | [p] =>
      if reverseHexTable p > 0x0f then .error (.invalidByte p)
      else .error .errLength
  | p :: q :: rest =>
      let a := reverseHexTable p
      let b := reverseHexTable q
      if a > 0x0f then .error (.invalidByte p)
      else if b > 0x0f then .error (.invalidByte q)
      else
        match decodeString rest with
        | .ok bytes => .ok (((a <<< 4) ||| b) :: bytes)
        | .error e => .error e

/-- The Go builtin `copy(dst, src)`: the first `min (len dst) (len src)`
elements of `dst` are overwritten. -/
def goCopy (dst src : List Nat) : List Nat :=
  src.take dst.length ++ dst.drop src.length

/-! ## The core -/

/-- The variable `romSize`, `int(math.Pow(2.0, 16.0))`. -/
def romSize : Nat := 2 ^ 16

/-- The struct `CPU`. -/
structure CPU where
  rom : List Nat
  ram : List Nat
  reg : List Nat
  pointer : Int
  loadAsData : Bool
  selReg : Nat
  deriving DecidableEq, Repr

/-- The errors `new` returns: the one of `hex.DecodeString`, passed on, or the
one built by `fmt.Errorf`, with its message. -/
inductive NewError where
  | decode (e : HexError)
  | capacity (msg : String)
  deriving DecidableEq, Repr

/-- The function `new`. The message prints the Go expression `2^16`, where `^`
is bitwise exclusive or. -/
def new (hexROM : List Nat) : Except NewError CPU :=
  match decodeString hexROM with
  | .error err => .error (.decode err)
  | .ok data =>
      if data.length > romSize then
        .error (.capacity ("Provided rom with size of " ++ toString data.length
          ++ " is bigger than max allowed " ++ toString (2 ^^^ 16)))
      else
        let rom := List.replicate romSize 0
        let rom := goCopy (rom.take data.length) data ++ rom.drop data.length
        .ok { rom := rom
              ram := List.replicate 256 0
              reg := List.replicate 16 0
              pointer := 0
              loadAsData := false
              selReg := 0 }

/-! ## The instruction set -/

abbrev nothingInstruction : Nat := 0x00
abbrev loadRegInstruction : Nat := 0x01
abbrev loadRamInstruction : Nat := 0x02
abbrev writeRamInstruction : Nat := 0x03
abbrev moveInstruction : Nat := 0x04
abbrev bitshiftInstruction : Nat := 0x05
abbrev invertInstruction : Nat := 0x06
abbrev orInstruction : Nat := 0x07
abbrev andInstruction : Nat := 0x08
abbrev xorInstruction : Nat := 0x09
abbrev addInstruction : Nat := 0x0A
abbrev subInstruction : Nat := 0x0B
abbrev compareInstruction : Nat := 0x0C
abbrev skipInstruction : Nat := 0x0D
abbrev jumpInstruction : Nat := 0x0E

abbrev operation1Reg : Nat := 0
abbrev operation2Reg : Nat := 1
abbrev ramAddressReg : Nat := 2
abbrev moveReg : Nat := 3
abbrev jumpReg : Nat := 4

/-- The assignment `xs[i] = v` to an element of a slice; Go panics when `i` is
not an index of `xs`. -/
def store (xs : List Nat) (i v : Nat) : Option (List Nat) :=
  if i < xs.length then some (xs.set i v) else none

/-- The method `DoCycle`. The result is `none` when Go panics on an index out of
range, and otherwise the core after the cycle with the boolean returned. The
`switch` is the chain of comparisons it stands for; no `case` names
`nothingInstruction`. -/
def DoCycle (c : CPU) : Option (CPU × Bool) :=
  -- load instruction
  if c.pointer < 0 then none else
  match c.rom[c.pointer.toNat]? with
  | none => none
  | some instruction =>
    let c := { c with pointer := wrap16 (c.pointer + 1) }
    -- if previous instruction was load into register
    if c.loadAsData then
      match store c.reg c.selReg instruction with
      | none => none
      | some reg => some ({ c with reg := reg, loadAsData := false, selReg := 0 }, true)
    else
      -- split up instruction and registers
      let c := { c with selReg := instruction &&& 0x0F }
      let instruction := instruction >>> 4
      if instruction = loadRegInstruction then
        some ({ c with loadAsData := true }, true)
      else if instruction = loadRamInstruction then do
        let a ← c.reg[ramAddressReg]?
        let v ← c.ram[a]?
        let reg ← store c.reg c.selReg v
        some ({ c with reg := reg }, true)
      else if instruction = writeRamInstruction then do
        let v ← c.reg[c.selReg]?
        let a ← c.reg[ramAddressReg]?
        let ram ← store c.ram a v
        some ({ c with ram := ram }, true)
      else if instruction = moveInstruction then do
        let tmp ← c.reg[moveReg]?
        let v ← c.reg[c.selReg]?
        let reg ← store c.reg moveReg v
        let reg ← store reg c.selReg tmp
        some ({ c with reg := reg }, true)
      else if instruction = bitshiftInstruction then do
        let v ← c.reg[c.selReg]?
        let reg ← store c.reg c.selReg ((v <<< 1) % 256)
        some ({ c with reg := reg }, true)
      else if instruction = invertInstruction then do
        let v ← c.reg[c.selReg]?
        let reg ← store c.reg c.selReg (v ^^^ 0xFF)
        some ({ c with reg := reg }, true)
      else if instruction = orInstruction then do
        let a ← c.reg[operation1Reg]?
        let b ← c.reg[operation2Reg]?
        let reg ← store c.reg c.selReg (a ||| b)
        some ({ c with reg := reg }, true)
      else if instruction = andInstruction then do
        let a ← c.reg[operation1Reg]?
        let b ← c.reg[operation2Reg]?
        let reg ← store c.reg c.selReg (a &&& b)
        some ({ c with reg := reg }, true)
      else if instruction = xorInstruction then do
        let a ← c.reg[operation1Reg]?
        let b ← c.reg[operation2Reg]?
        let reg ← store c.reg c.selReg (a ^^^ b)
        some ({ c with reg := reg }, true)
      else if instruction = addInstruction then do
        let a ← c.reg[operation1Reg]?
        let b ← c.reg[operation2Reg]?
        let reg ← store c.reg c.selReg ((a + b) % 256)
        some ({ c with reg := reg }, true)
      else if instruction = subInstruction then do
        let a ← c.reg[operation1Reg]?
        let b ← c.reg[operation2Reg]?
        let reg ← store c.reg c.selReg (wrap8 ((a : Int) - (b : Int)))
        some ({ c with reg := reg }, true)
      else if instruction = compareInstruction then do
        let a ← c.reg[operation1Reg]?
        let b ← c.reg[operation2Reg]?
        if a > b then
          let reg ← store c.reg c.selReg 0x01
          some ({ c with reg := reg }, true)
        else
          some (c, true)
      else if instruction = skipInstruction then do
        let v ← c.reg[c.selReg]?
        if v &&& 0x01 = 0x01 then
          some ({ c with pointer := wrap16 (c.pointer + 1) }, true)
        else
          some (c, true)
      else if instruction = jumpInstruction then do
        let hi ← c.reg[jumpReg]?
        let lo ← c.reg[c.selReg]?
        let jumpPoint := wrap16 ((hi : Int) * 2 ^ 8)
        let jumpPoint := wrap16 (jumpPoint + (lo : Int))
        some ({ c with pointer := jumpPoint }, true)
      else
        some (c, false)

/-- The method `getRegister`; `none` when Go panics on the index. -/
def getRegister (c : CPU) (reg : Int) : Option Nat :=
  if reg > (c.reg.length : Int) then some 0
  else if reg < 0 then none
  else c.reg[reg.toNat]?

/-- A well-formed core: 16 registers, 256 memory cells, every cell of the three
stores a byte, the remembered register an index of the register file and the
pointer an `int16`. The length of the program store is left free; `new` makes
it 65,536. -/
structure WF (c : CPU) : Prop where
  reg_len : c.reg.length = 16
  ram_len : c.ram.length = 256
  reg_byte : ∀ v ∈ c.reg, v < 256
  ram_byte : ∀ v ∈ c.ram, v < 256
  rom_byte : ∀ v ∈ c.rom, v < 256
  selReg_lt : c.selReg < 16
  pointer_ge : -32768 ≤ c.pointer
  pointer_le : c.pointer ≤ 32767

instance (c : CPU) : Decidable (WF c) :=
  decidable_of_iff
    (c.reg.length = 16 ∧ c.ram.length = 256 ∧ (∀ v ∈ c.reg, v < 256) ∧
      (∀ v ∈ c.ram, v < 256) ∧ (∀ v ∈ c.rom, v < 256) ∧ c.selReg < 16 ∧
      -32768 ≤ c.pointer ∧ c.pointer ≤ 32767)
    ⟨fun ⟨h1, h2, h3, h4, h5, h6, h7, h8⟩ => ⟨h1, h2, h3, h4, h5, h6, h7, h8⟩,
     fun ⟨h1, h2, h3, h4, h5, h6, h7, h8⟩ => ⟨h1, h2, h3, h4, h5, h6, h7, h8⟩⟩

/-- The byte `b` is the one the next cycle fetches: the pointer is an index of
the program store and `b` is stored there. -/
def Fetches (c : CPU) (b : Nat) : Prop :=
  0 ≤ c.pointer ∧ c.rom[c.pointer.toNat]? = some b

instance (c : CPU) (b : Nat) : Decidable (Fetches c b) := by
  unfold Fetches; infer_instance

/-- Two `DoCycle` calls in a row; the second is made whatever the first
returned. -/
def twoCycles (c : CPU) : Option (CPU × Bool × Bool) :=
  match DoCycle c with
  | none => none
  | some (c1, b1) =>
    match DoCycle c1 with
    | none => none
    | some (c2, b2) => some (c2, b1, b2)

/-- A core with the given program store and register file, a zero working
memory, the pointer at 0 and the pending-load flag clear. -/
def exampleCore (rom reg : List Nat) : CPU :=
  { rom := rom
    ram := List.replicate 256 0
    reg := reg
    pointer := 0
    loadAsData := false
    selReg := 0 }

/-- Sixteen distinct register values, `10, 11, ..., 25`. -/
def exampleRegs : List Nat := [10, 11, 12, 13, 14, 15, 16, 17, 18, 19, 20, 21, 22, 23, 24, 25]

/-- A program store of 65,536 bytes, zero but for the bytes `0x15`, `0x15`,
`0x07` at the addresses 32766, 32767 and 32768. -/
def wrapRom : List Nat :=
  List.replicate 32766 0 ++ (0x15 :: 0x15 :: 0x07 :: List.replicate 32767 0)

/-- The core over `wrapRom` with the pointer at `p`. -/
def wrapCore (p : Nat) : CPU :=
  { exampleCore wrapRom exampleRegs with pointer := (p : Int) }

/-- A register file with `0xFF` in register 0, `0x02` in register 1 and zero
elsewhere. -/
def aluRegs : List Nat := [0xFF, 0x02, 0, 0, 0, 0, 0, 0, 0, 0, 0, 0, 0, 0, 0, 0]

/-- The result the specification gives for the five binary operations, by
opcode: bitwise or (`0x7`), and (`0x8`), exclusive or (`0x9`), the sum modulo 256
(`0xA`) and the difference modulo 256 (`0xB`). -/
def aluResult (op a b : Nat) : Nat :=
  if op = 0x7 then a ||| b
  else if op = 0x8 then a &&& b
  else if op = 0x9 then a ^^^ b
  else if op = 0xA then (a + b) % 256
  else if b ≤ a then a - b else 256 + a - b

/-- A register file with `0x02` in register 2, `0x01` in register 5 and zero
elsewhere. -/
def skipRegs : List Nat := [0, 0, 0x02, 0, 0, 0x01, 0, 0, 0, 0, 0, 0, 0, 0, 0, 0]

/-- A register file with `0x80` in register 4 and zero elsewhere. -/
def jumpRegs : List Nat := [0, 0, 0, 0, 0x80, 0, 0, 0, 0, 0, 0, 0, 0, 0, 0, 0]

/-- A register file with `0x01` in register 4, `0x02` in register 5 and zero
elsewhere. -/
def jumpLowRegs : List Nat := [0, 0, 0, 0, 0x01, 0x02, 0, 0, 0, 0, 0, 0, 0, 0, 0, 0]

/-- The given number of `DoCycle` calls in a row, each made whatever the one
before returned, with the list of the booleans returned; `none` when a call
faults. -/
def doCycles : Nat → CPU → Option (CPU × List Bool)
  | 0, c => some (c, [])
  | n + 1, c =>
    match DoCycle c with
    | none => none
    | some (c1, b) =>
      match doCycles n c1 with
      | none => none
      | some (c2, bs) => some (c2, b :: bs)

/-- A register file with the address `0x07` in register 2, `0x2A` in register
5 and zero elsewhere. -/
def memRegs : List Nat := [0, 0, 0x07, 0, 0, 0x2A, 0, 0, 0, 0, 0, 0, 0, 0, 0, 0]

/-- A register file with `0xC3` in register 5 and zero elsewhere. -/
def unaryRegs : List Nat := [0, 0, 0, 0, 0, 0xC3, 0, 0, 0, 0, 0, 0, 0, 0, 0, 0]

/-- The bytes of an ASCII string literal. -/
def ascii (s : String) : List Nat := s.data.map Char.toNat

/-- The outcome of the driver loop of `main` run with a bound on the number of
cycles: the loop ended with the given core, a cycle faulted, or the bound was
reached with the loop still running. -/
inductive Run where
  | finished (c : CPU)
  | faulted
  | outOfFuel
  deriving DecidableEq, Repr

/-- The loop `for run && cpu.pointer < int16(100) { run = cpu.DoCycle() }` of
`main`, with `fuel` bounding the number of cycles. -/
def mainLoop : Nat → Bool → CPU → Run
  | 0, run, c => if run = true ∧ c.pointer < 100 then .outOfFuel else .finished c
  | fuel + 1, run, c =>
    if run = true ∧ c.pointer < 100 then
      match DoCycle c with
      | none => .faulted
      | some (c1, r) => mainLoop fuel r c1
    else .finished c

/-- The upper-case hexadecimal digit of a number below 16. -/
def hexChar (d : Nat) : Nat := if d < 10 then 48 + d else 55 + d

/-- The two hexadecimal digits of a byte. -/
def hexOfByte (b : Nat) : List Nat := [hexChar (b / 16), hexChar (b % 16)]

/-- The string `rom` of `main`, with the bytes `A` and `B` in place of its
numbers `FF` and `F0`. -/
def sampleProgram (A B : Nat) : List Nat :=
  ascii "10" ++ hexOfByte A ++ ascii "11" ++ hexOfByte B ++ ascii "C5" ++ ascii "16" ++
    ascii "0E" ++ ascii "17" ++ ascii "0D" ++ ascii "D5" ++ ascii "E7" ++ ascii "40" ++
    ascii "E6" ++ ascii "41" ++ ascii "33" ++ ascii "00"

/-- The sixteen bytes the string of `sampleProgram A B` writes. -/
def sampleBytes (A B : Nat) : List Nat :=
  [0x10, A, 0x11, B, 0xC5, 0x16, 0x0E, 0x17, 0x0D, 0xD5, 0xE7, 0x40, 0xE6, 0x41, 0x33, 0x00]

/-! ## Vocabulary of the specification -/

/-- A byte that is a hexadecimal digit, in either case. -/
def isHexDigit (b : Nat) : Prop :=
  (48 ≤ b ∧ b ≤ 57) ∨ (97 ≤ b ∧ b ≤ 102) ∨ (65 ≤ b ∧ b ≤ 70)

instance (b : Nat) : Decidable (isHexDigit b) := by
  unfold isHexDigit; infer_instance

/-- The value, 0 to 15, of a hexadecimal digit. -/
def hexDigitValue (b : Nat) : Nat :=
  if b ≤ 57 then b - 48 else if b ≤ 70 then b - 65 + 10 else b - 97 + 10

/-- The byte written by the `i`-th pair of digits of a string. -/
def hexByteAt (s : List Nat) (i : Nat) : Nat :=
  16 * hexDigitValue (s.getD (2 * i) 0) + hexDigitValue (s.getD (2 * i + 1) 0)

/-- A string made of hexadecimal digits only, in even number. -/
def ValidHex (s : List Nat) : Prop :=
  s.length % 2 = 0 ∧ ∀ b ∈ s, isHexDigit b

instance (s : List Nat) : Decidable (ValidHex s) := by
  unfold ValidHex; infer_instance

/-! ## Decoding -/

/-- Induction over a list two elements at a time, the recursion of `decodeString`. -/
theorem pairInduction {P : List Nat → Prop} (nil : P []) (single : ∀ p, P [p])
    (pair : ∀ p q rest, P rest → P (p :: q :: rest)) : ∀ s, P s
  | [] => nil
  | [p] => single p
  | p :: q :: rest => pair p q rest (pairInduction nil single pair rest)

theorem shl4_or (a b : Nat) (ha : a < 16) (hb : b < 16) :
    (a <<< 4) ||| b = 16 * a + b := by
  interval_cases a <;> interval_cases b <;> rfl

theorem reverseHexTable_le_iff (p : Nat) :
    reverseHexTable p ≤ 15 ↔ isHexDigit p := by
  unfold reverseHexTable isHexDigit
  split_ifs with h1 h2 h3 <;> omega

theorem reverseHexTable_eq (p : Nat) (h : isHexDigit p) :
    reverseHexTable p = hexDigitValue p := by
  unfold isHexDigit at h
  unfold reverseHexTable hexDigitValue
  split_ifs <;> omega

theorem decodeString_ok (s : List Nat) (h : ValidHex s) :
    ∃ data, decodeString s = .ok data ∧ 2 * data.length = s.length ∧
      ∀ i, i < data.length → data[i]? = some (hexByteAt s i) := by
  induction s using pairInduction with
  | nil => exact ⟨[], rfl, rfl, by simp⟩
  | single p => exact absurd h.1 (by simp)
  | pair p q rest ih =>
    obtain ⟨hlen, hall⟩ := h
    have hp : isHexDigit p := hall p (by simp)
    have hq : isHexDigit q := hall q (by simp)
    have hrest : ValidHex rest :=
      ⟨by simp only [List.length_cons] at hlen; omega,
       fun b hb => hall b (by simp [hb])⟩
    obtain ⟨data, hd, hl, hget⟩ := ih hrest
    have hp15 := (reverseHexTable_le_iff p).2 hp
    have hq15 := (reverseHexTable_le_iff q).2 hq
    refine ⟨((reverseHexTable p <<< 4) ||| reverseHexTable q) :: data, ?_, ?_, ?_⟩
    · simp only [decodeString, hd]
      rw [if_neg (by omega), if_neg (by omega)]
    · simp only [List.length_cons]; omega
    · intro i hi
      cases i with
      | zero =>
        simp only [List.getElem?_cons_zero, hexByteAt, Nat.mul_zero, List.getD_cons_zero,
          Nat.zero_add, List.getD_cons_succ]
        rw [shl4_or _ _ (by omega) (by omega), reverseHexTable_eq p hp, reverseHexTable_eq q hq]
      | succ j =>
        simp only [List.length_cons] at hi
        rw [List.getElem?_cons_succ, hget j (by omega)]
        simp only [hexByteAt]
        have e1 : 2 * (j + 1) = (2 * j) + 1 + 1 := by ring
        rw [e1]
        simp only [List.getD_cons_succ]

theorem decodeString_error_iff (s : List Nat) :
    (∃ e, decodeString s = .error e) ↔
      (s.length % 2 = 1 ∨ ∃ b ∈ s, ¬ isHexDigit b) := by
  induction s using pairInduction with
  | nil => simp [decodeString]
  | single p =>
    simp only [decodeString]
    constructor
    · intro _; left; rfl
    · intro _; split_ifs <;> exact ⟨_, rfl⟩
  | pair p q rest ih =>
    have hp := reverseHexTable_le_iff p
    have hq := reverseHexTable_le_iff q
    simp only [decodeString]
    by_cases h1 : reverseHexTable p > 0x0f
    · rw [if_pos h1]
      exact ⟨fun _ => Or.inr ⟨p, by simp, fun hh => by have := hp.2 hh; omega⟩,
        fun _ => ⟨_, rfl⟩⟩
    · rw [if_neg h1]
      by_cases h2 : reverseHexTable q > 0x0f
      · rw [if_pos h2]
        exact ⟨fun _ => Or.inr ⟨q, by simp, fun hh => by have := hq.2 hh; omega⟩,
          fun _ => ⟨_, rfl⟩⟩
      · rw [if_neg h2]
        have hp' : isHexDigit p := hp.1 (by omega)
        have hq' : isHexDigit q := hq.1 (by omega)
        have key : (rest.length % 2 = 1 ∨ ∃ b ∈ rest, ¬ isHexDigit b) ↔
            ((p :: q :: rest).length % 2 = 1 ∨ ∃ b ∈ p :: q :: rest, ¬ isHexDigit b) := by
          simp only [List.length_cons, List.mem_cons, exists_eq_or_imp, hp', hq',
            not_true_eq_false, false_or]
          constructor
          · rintro (h | h)
            · left; omega
            · right; exact h
          · rintro (h | h)
            · left; omega
            · right; exact h
        rw [← key, ← ih]
        cases hd : decodeString rest with
        | ok bytes => simp
        | error e => simp

/-! ## Construction -/

theorem new_of_decode (s data : List Nat) (hd : decodeString s = .ok data)
    (hle : data.length ≤ romSize) :
    new s = .ok { rom := data ++ List.replicate (romSize - data.length) 0
                  ram := List.replicate 256 0
                  reg := List.replicate 16 0
                  pointer := 0
                  loadAsData := false
                  selReg := 0 } := by
  have h1 : goCopy ((List.replicate romSize 0).take data.length) data = data := by
    simp [goCopy, List.length_take, Nat.min_eq_left hle]
  simp only [new, hd, if_neg (Nat.not_lt.2 hle), h1, List.drop_replicate]

theorem new_of_decode_big (s data : List Nat) (hd : decodeString s = .ok data)
    (hgt : romSize < data.length) :
    ∃ msg, new s = .error (.capacity msg) := by
  simp only [new, hd]
  rw [if_pos hgt]
  exact ⟨_, rfl⟩

theorem new_of_decode_error (s : List Nat) (e : HexError)
    (hd : decodeString s = .error e) : new s = .error (.decode e) := by
  simp only [new, hd]

/-- C1. A string of hexadecimal digits, of even length, that decodes to at most
65,536 bytes is accepted by `new`; the core returned has a program store of
65,536 bytes that starts with the decoded bytes, in order, and is zero after
them, a working memory of 256 zero bytes, 16 zero registers, the pointer at 0
and the pending-load flag clear. -/
theorem new_loads_program (s : List Nat) (h : ValidHex s) (hN : s.length / 2 ≤ 65536) :
    ∃ c, new s = .ok c ∧ c.rom.length = 65536 ∧
      (∀ i, i < s.length / 2 → c.rom[i]? = some (hexByteAt s i)) ∧
      (∀ i, s.length / 2 ≤ i → i < 65536 → c.rom[i]? = some 0) ∧
      c.ram = List.replicate 256 0 ∧ c.reg = List.replicate 16 0 ∧
      c.pointer = 0 ∧ c.loadAsData = false := by
  obtain ⟨data, hd, hl, hget⟩ := decodeString_ok s h
  have hlen : data.length = s.length / 2 := by omega
  have hle : data.length ≤ romSize := by rw [hlen]; exact hN
  have hle' : data.length ≤ 65536 := hle
  refine ⟨_, new_of_decode s data hd hle, ?_, ?_, ?_, rfl, rfl, rfl, rfl⟩
  · simp only [List.length_append, List.length_replicate, romSize]
    omega
  · intro i hi
    rw [← hlen] at hi
    simp only []
    rw [List.getElem?_append_left hi]
    exact hget i hi
  · intro i h1 h2
    rw [← hlen] at h1
    simp only []
    rw [List.getElem?_append_right h1, List.getElem?_replicate]
    rw [if_pos (by simp only [romSize]; omega)]

/-- The theorem `new_loads_program` at the string `10fF`. -/
theorem new_loads_program_witness :
    ∃ c, new (ascii "10fF") = .ok c ∧ c.rom.length = 65536 ∧
      (∀ i, i < (ascii "10fF").length / 2 → c.rom[i]? = some (hexByteAt (ascii "10fF") i)) ∧
      (∀ i, (ascii "10fF").length / 2 ≤ i → i < 65536 → c.rom[i]? = some 0) ∧
      c.ram = List.replicate 256 0 ∧ c.reg = List.replicate 16 0 ∧
      c.pointer = 0 ∧ c.loadAsData = false :=
  new_loads_program (ascii "10fF") (by unfold ValidHex; decide) (by decide)

/-- C2. The function `new` fails with the error of the decoder exactly when its
argument has odd length or holds a byte that is not a hexadecimal digit; no
core is returned then. -/
theorem new_decode_error_iff (s : List Nat) :
    ((∃ e, new s = .error (.decode e)) ↔
      (s.length % 2 = 1 ∨ ∃ b ∈ s, ¬ isHexDigit b)) ∧
    ((s.length % 2 = 1 ∨ ∃ b ∈ s, ¬ isHexDigit b) → ∀ c, new s ≠ .ok c) := by
  have key : (∃ e, new s = .error (.decode e)) ↔ ∃ e, decodeString s = .error e := by
    constructor
    · rintro ⟨e, he⟩
      cases hd : decodeString s with
      | error e' => exact ⟨e', rfl⟩
      | ok data =>
        exfalso
        simp only [new, hd] at he
        split_ifs at he
        exact NewError.noConfusion (Except.error.inj he)
    · rintro ⟨e, he⟩
      exact ⟨e, new_of_decode_error s e he⟩
  refine ⟨key.trans (decodeString_error_iff s), ?_⟩
  intro hbad c hc
  obtain ⟨e, he⟩ := key.2 ((decodeString_error_iff s).2 hbad)
  rw [he] at hc
  cases hc

/-- C3. For a string of hexadecimal digits of even length, `new` fails with the
capacity error exactly when the number of decoded bytes exceeds 65,536, and it
returns a core when that number is at most 65,536. -/
theorem new_capacity_error_iff (s : List Nat) (h : ValidHex s) :
    ∃ data, decodeString s = .ok data ∧ 2 * data.length = s.length ∧
      ((∃ msg, new s = .error (.capacity msg)) ↔ 65536 < data.length) ∧
      (data.length ≤ 65536 → ∃ c, new s = .ok c) := by
  obtain ⟨data, hd, hl, -⟩ := decodeString_ok s h
  refine ⟨data, hd, hl, ⟨?_, ?_⟩, ?_⟩
  · rintro ⟨msg, hmsg⟩
    by_contra hle
    rw [new_of_decode s data hd (by simp only [romSize]; omega)] at hmsg
    cases hmsg
  · intro hgt
    exact new_of_decode_big s data hd hgt
  · intro hle
    exact ⟨_, new_of_decode s data hd hle⟩

/-- The theorem `new_capacity_error_iff` at a string of 131,074 digits `0`,
which decodes to 65,537 bytes. -/
theorem new_capacity_error_iff_witness :
    ∃ data, decodeString (List.replicate 131074 48) = .ok data ∧
      2 * data.length = (List.replicate 131074 48).length ∧
      ((∃ msg, new (List.replicate 131074 48) = .error (.capacity msg)) ↔
        65536 < data.length) ∧
      (data.length ≤ 65536 → ∃ c, new (List.replicate 131074 48) = .ok c) :=
  new_capacity_error_iff (List.replicate 131074 48)
    ⟨by rw [List.length_replicate], fun b hb => by rw [List.eq_of_mem_replicate hb]; decide⟩

/-! ## One cycle -/

theorem getElem?_eq_getD (xs : List Nat) (i : Nat) (h : i < xs.length) :
    xs[i]? = some (xs.getD i 0) := by
  rw [List.getD_eq_getElem?_getD, List.getElem?_eq_getElem h]
  rfl

theorem nibble_hi (op R : Nat) (hR : R < 16) : (16 * op + R) >>> 4 = op := by
  rw [Nat.shiftRight_eq_div_pow]
  omega

theorem nibble_lo (op R : Nat) (hR : R < 16) : (16 * op + R) &&& 0x0F = R := by
  have h := Nat.and_pow_two_sub_one_eq_mod (16 * op + R) 4
  have e : (2 : Nat) ^ 4 - 1 = 0x0F := rfl
  rw [e] at h
  rw [h]
  omega

theorem low_nibble_lt (b : Nat) : b &&& 0x0F < 16 := by
  have h := Nat.and_pow_two_sub_one_eq_mod b 4
  have e : (2 : Nat) ^ 4 - 1 = 0x0F := rfl
  rw [e] at h
  rw [h]
  omega

theorem getD_mem (xs : List Nat) (i : Nat) (h : i < xs.length) : xs.getD i 0 ∈ xs := by
  rw [List.getD_eq_getElem _ _ h]
  exact List.getElem_mem h

theorem DoCycle_data (c : CPU) (b : Nat) (hsel : c.selReg < c.reg.length)
    (hf : c.loadAsData = true) (h : Fetches c b) :
    DoCycle c = some ({ c with
      pointer := wrap16 (c.pointer + 1)
      reg := c.reg.set c.selReg b
      loadAsData := false
      selReg := 0 }, true) := by
  obtain ⟨h0, hb⟩ := h
  simp only [DoCycle, if_neg (not_lt.2 h0), hb, hf, store]
  simp [hsel]

theorem DoCycle_halt (c : CPU) (b : Nat) (hf : c.loadAsData = false) (h : Fetches c b)
    (hop : b >>> 4 = 0 ∨ b >>> 4 = 15) :
    DoCycle c = some ({ c with
      pointer := wrap16 (c.pointer + 1)
      selReg := b &&& 0x0F }, false) := by
  obtain ⟨h0, hb⟩ := h
  rcases hop with hop | hop <;>
    simp [DoCycle, if_neg (not_lt.2 h0), hb, hf, hop]

theorem DoCycle_loadReg (c : CPU) (b : Nat) (hf : c.loadAsData = false) (h : Fetches c b)
    (hop : b >>> 4 = 1) :
    DoCycle c = some ({ c with
      pointer := wrap16 (c.pointer + 1)
      selReg := b &&& 0x0F
      loadAsData := true }, true) := by
  obtain ⟨h0, hb⟩ := h
  simp [DoCycle, if_neg (not_lt.2 h0), hb, hf, hop]

theorem DoCycle_loadRam (c : CPU) (b : Nat) (hreg : c.reg.length = 16)
    (hram : c.ram.length = 256) (haddr : c.reg.getD 2 0 < 256)
    (hf : c.loadAsData = false) (h : Fetches c b) (hop : b >>> 4 = 2) :
    DoCycle c = some ({ c with
      pointer := wrap16 (c.pointer + 1)
      selReg := b &&& 0x0F
      reg := c.reg.set (b &&& 0x0F) (c.ram.getD (c.reg.getD 2 0) 0) }, true) := by
  obtain ⟨h0, hb⟩ := h
  have hR := low_nibble_lt b
  have h2 := getElem?_eq_getD c.reg 2 (by omega)
  have hm := getElem?_eq_getD c.ram (c.reg.getD 2 0) (by omega)
  simp only [DoCycle, if_neg (not_lt.2 h0), hb, hf, hop, store, ramAddressReg, h2]
  simp only [hreg, hR, hm, List.length_set, Option.bind_eq_bind, Option.some_bind, Bool.false_eq_true, if_false, if_true,
    loadRegInstruction, loadRamInstruction, writeRamInstruction, moveInstruction,
    bitshiftInstruction, invertInstruction, orInstruction, andInstruction, xorInstruction,
    addInstruction, subInstruction, compareInstruction, skipInstruction, jumpInstruction]
  rfl

theorem DoCycle_writeRam (c : CPU) (b : Nat) (hreg : c.reg.length = 16)
    (hram : c.ram.length = 256) (haddr : c.reg.getD 2 0 < 256)
    (hf : c.loadAsData = false) (h : Fetches c b) (hop : b >>> 4 = 3) :
    DoCycle c = some ({ c with
      pointer := wrap16 (c.pointer + 1)
      selReg := b &&& 0x0F
      ram := c.ram.set (c.reg.getD 2 0) (c.reg.getD (b &&& 0x0F) 0) }, true) := by
  obtain ⟨h0, hb⟩ := h
  have hR := low_nibble_lt b
  have h2 := getElem?_eq_getD c.reg 2 (by omega)
  have hr := getElem?_eq_getD c.reg (b &&& 0x0F) (by omega)
  simp only [DoCycle, if_neg (not_lt.2 h0), hb, hf, hop, store, ramAddressReg, h2, hr]
  simp only [hram, haddr, Option.bind_eq_bind, Option.some_bind, Bool.false_eq_true, if_false, if_true,
    loadRegInstruction, loadRamInstruction, writeRamInstruction, moveInstruction,
    bitshiftInstruction, invertInstruction, orInstruction, andInstruction, xorInstruction,
    addInstruction, subInstruction, compareInstruction, skipInstruction, jumpInstruction]
  rfl

theorem DoCycle_move (c : CPU) (b : Nat) (hreg : c.reg.length = 16)
    (hf : c.loadAsData = false) (h : Fetches c b) (hop : b >>> 4 = 4) :
    DoCycle c = some ({ c with
      pointer := wrap16 (c.pointer + 1)
      selReg := b &&& 0x0F
      reg := (c.reg.set 3 (c.reg.getD (b &&& 0x0F) 0)).set (b &&& 0x0F) (c.reg.getD 3 0) }, true) := by
  obtain ⟨h0, hb⟩ := h
  have hR := low_nibble_lt b
  have h3 := getElem?_eq_getD c.reg 3 (by omega)
  have hr := getElem?_eq_getD c.reg (b &&& 0x0F) (by omega)
  simp only [DoCycle, if_neg (not_lt.2 h0), hb, hf, hop, store, moveReg, h3, hr]
  simp [hreg, hR]

theorem DoCycle_bitshift (c : CPU) (b : Nat) (hreg : c.reg.length = 16)
    (hf : c.loadAsData = false) (h : Fetches c b) (hop : b >>> 4 = 5) :
    DoCycle c = some ({ c with
      pointer := wrap16 (c.pointer + 1)
      selReg := b &&& 0x0F
      reg := c.reg.set (b &&& 0x0F) ((c.reg.getD (b &&& 0x0F) 0 <<< 1) % 256) }, true) := by
  obtain ⟨h0, hb⟩ := h
  have hR := low_nibble_lt b
  have hr := getElem?_eq_getD c.reg (b &&& 0x0F) (by omega)
  simp only [DoCycle, if_neg (not_lt.2 h0), hb, hf, hop, store, hr]
  simp [hreg, hR]

theorem DoCycle_invert (c : CPU) (b : Nat) (hreg : c.reg.length = 16)
    (hf : c.loadAsData = false) (h : Fetches c b) (hop : b >>> 4 = 6) :
    DoCycle c = some ({ c with
      pointer := wrap16 (c.pointer + 1)
      selReg := b &&& 0x0F
      reg := c.reg.set (b &&& 0x0F) (c.reg.getD (b &&& 0x0F) 0 ^^^ 0xFF) }, true) := by
  obtain ⟨h0, hb⟩ := h
  have hR := low_nibble_lt b
  have hr := getElem?_eq_getD c.reg (b &&& 0x0F) (by omega)
  simp only [DoCycle, if_neg (not_lt.2 h0), hb, hf, hop, store, hr]
  simp [hreg, hR]

theorem DoCycle_or (c : CPU) (b : Nat) (hreg : c.reg.length = 16)
    (hf : c.loadAsData = false) (h : Fetches c b) (hop : b >>> 4 = 7) :
    DoCycle c = some ({ c with
      pointer := wrap16 (c.pointer + 1)
      selReg := b &&& 0x0F
      reg := c.reg.set (b &&& 0x0F) (c.reg.getD 0 0 ||| c.reg.getD 1 0) }, true) := by
  obtain ⟨h0, hb⟩ := h
  have hR := low_nibble_lt b
  have ha := getElem?_eq_getD c.reg 0 (by omega)
  have hb1 := getElem?_eq_getD c.reg 1 (by omega)
  simp only [DoCycle, if_neg (not_lt.2 h0), hb, hf, hop, store, operation1Reg, operation2Reg, ha, hb1]
  simp [hreg, hR]

theorem DoCycle_and (c : CPU) (b : Nat) (hreg : c.reg.length = 16)
    (hf : c.loadAsData = false) (h : Fetches c b) (hop : b >>> 4 = 8) :
    DoCycle c = some ({ c with
      pointer := wrap16 (c.pointer + 1)
      selReg := b &&& 0x0F
      reg := c.reg.set (b &&& 0x0F) (c.reg.getD 0 0 &&& c.reg.getD 1 0) }, true) := by
  obtain ⟨h0, hb⟩ := h
  have hR := low_nibble_lt b
  have ha := getElem?_eq_getD c.reg 0 (by omega)
  have hb1 := getElem?_eq_getD c.reg 1 (by omega)
  simp only [DoCycle, if_neg (not_lt.2 h0), hb, hf, hop, store, operation1Reg, operation2Reg, ha, hb1]
  simp [hreg, hR]

theorem DoCycle_xor (c : CPU) (b : Nat) (hreg : c.reg.length = 16)
    (hf : c.loadAsData = false) (h : Fetches c b) (hop : b >>> 4 = 9) :
    DoCycle c = some ({ c with
      pointer := wrap16 (c.pointer + 1)
      selReg := b &&& 0x0F
      reg := c.reg.set (b &&& 0x0F) (c.reg.getD 0 0 ^^^ c.reg.getD 1 0) }, true) := by
  obtain ⟨h0, hb⟩ := h
  have hR := low_nibble_lt b
  have ha := getElem?_eq_getD c.reg 0 (by omega)
  have hb1 := getElem?_eq_getD c.reg 1 (by omega)
  simp only [DoCycle, if_neg (not_lt.2 h0), hb, hf, hop, store, operation1Reg, operation2Reg, ha, hb1]
  simp [hreg, hR]

theorem DoCycle_add (c : CPU) (b : Nat) (hreg : c.reg.length = 16)
    (hf : c.loadAsData = false) (h : Fetches c b) (hop : b >>> 4 = 10) :
    DoCycle c = some ({ c with
      pointer := wrap16 (c.pointer + 1)
      selReg := b &&& 0x0F
      reg := c.reg.set (b &&& 0x0F) ((c.reg.getD 0 0 + c.reg.getD 1 0) % 256) }, true) := by
  obtain ⟨h0, hb⟩ := h
  have hR := low_nibble_lt b
  have ha := getElem?_eq_getD c.reg 0 (by omega)
  have hb1 := getElem?_eq_getD c.reg 1 (by omega)
  simp only [DoCycle, if_neg (not_lt.2 h0), hb, hf, hop, store, operation1Reg, operation2Reg, ha, hb1]
  simp [hreg, hR]

theorem DoCycle_sub (c : CPU) (b : Nat) (hreg : c.reg.length = 16)
    (hf : c.loadAsData = false) (h : Fetches c b) (hop : b >>> 4 = 11) :
    DoCycle c = some ({ c with
      pointer := wrap16 (c.pointer + 1)
      selReg := b &&& 0x0F
      reg := c.reg.set (b &&& 0x0F) (wrap8 ((c.reg.getD 0 0 : Int) - (c.reg.getD 1 0 : Int))) }, true) := by
  obtain ⟨h0, hb⟩ := h
  have hR := low_nibble_lt b
  have ha := getElem?_eq_getD c.reg 0 (by omega)
  have hb1 := getElem?_eq_getD c.reg 1 (by omega)
  simp only [DoCycle, if_neg (not_lt.2 h0), hb, hf, hop, store, operation1Reg, operation2Reg, ha, hb1]
  simp [hreg, hR]

theorem DoCycle_compare (c : CPU) (b : Nat) (hreg : c.reg.length = 16)
    (hf : c.loadAsData = false) (h : Fetches c b) (hop : b >>> 4 = 12) :
    DoCycle c = some ({ c with
      pointer := wrap16 (c.pointer + 1)
      selReg := b &&& 0x0F
      reg := if c.reg.getD 0 0 > c.reg.getD 1 0 then c.reg.set (b &&& 0x0F) 0x01
             else c.reg }, true) := by
  obtain ⟨h0, hb⟩ := h
  have hR := low_nibble_lt b
  have ha := getElem?_eq_getD c.reg 0 (by omega)
  have hb1 := getElem?_eq_getD c.reg 1 (by omega)
  by_cases hgt : c.reg.getD 0 0 > c.reg.getD 1 0
  · simp only [DoCycle, if_neg (not_lt.2 h0), hb, hf, hop, store, operation1Reg, operation2Reg,
      ha, hb1, hgt, Nat.reduceEqDiff, if_false, if_true, Bool.false_eq_true,
      Option.bind_eq_bind, Option.some_bind]
    simp [hreg, hR]
  · simp only [DoCycle, if_neg (not_lt.2 h0), hb, hf, hop, store, operation1Reg, operation2Reg,
      ha, hb1, hgt, Nat.reduceEqDiff, if_false, if_true, Bool.false_eq_true,
      Option.bind_eq_bind, Option.some_bind]
    simp

theorem DoCycle_skip (c : CPU) (b : Nat) (hreg : c.reg.length = 16)
    (hf : c.loadAsData = false) (h : Fetches c b) (hop : b >>> 4 = 13) :
    DoCycle c = some ({ c with
      pointer := if c.reg.getD (b &&& 0x0F) 0 &&& 0x01 = 0x01
                 then wrap16 (wrap16 (c.pointer + 1) + 1) else wrap16 (c.pointer + 1)
      selReg := b &&& 0x0F }, true) := by
  obtain ⟨h0, hb⟩ := h
  have hR := low_nibble_lt b
  have hr := getElem?_eq_getD c.reg (b &&& 0x0F) (by omega)
  by_cases hodd : c.reg.getD (b &&& 0x0F) 0 &&& 0x01 = 0x01
  · simp only [DoCycle, if_neg (not_lt.2 h0), hb, hf, hop, store, hr, hodd, Nat.reduceEqDiff,
      if_false, if_true, Bool.false_eq_true, Option.bind_eq_bind, Option.some_bind]
    simp
  · simp only [DoCycle, if_neg (not_lt.2 h0), hb, hf, hop, store, hr, hodd, Nat.reduceEqDiff,
      if_false, if_true, Bool.false_eq_true, Option.bind_eq_bind, Option.some_bind]
    simp

theorem DoCycle_jump (c : CPU) (b : Nat) (hreg : c.reg.length = 16)
    (hf : c.loadAsData = false) (h : Fetches c b) (hop : b >>> 4 = 14) :
    DoCycle c = some ({ c with
      pointer := wrap16 (wrap16 ((c.reg.getD 4 0 : Int) * 2 ^ 8) + (c.reg.getD (b &&& 0x0F) 0 : Int))
      selReg := b &&& 0x0F }, true) := by
  obtain ⟨h0, hb⟩ := h
  have hR := low_nibble_lt b
  have h4 := getElem?_eq_getD c.reg 4 (by omega)
  have hr := getElem?_eq_getD c.reg (b &&& 0x0F) (by omega)
  simp only [DoCycle, if_neg (not_lt.2 h0), hb, hf, hop, store, jumpReg, h4, hr]
  simp only [Option.bind_eq_bind, Option.some_bind, Bool.false_eq_true, if_false, if_true,
    loadRegInstruction, loadRamInstruction, writeRamInstruction, moveInstruction,
    bitshiftInstruction, invertInstruction, orInstruction, andInstruction, xorInstruction,
    addInstruction, subInstruction, compareInstruction, skipInstruction, jumpInstruction]
  rfl

/-! ## Auxiliary facts on lists and machine integers -/

theorem getD_set (xs : List Nat) (i j v : Nat) :
    (xs.set i v).getD j 0 = if i = j ∧ i < xs.length then v else xs.getD j 0 := by
  simp only [List.getD_eq_getElem?_getD, List.getElem?_set]
  by_cases h1 : i = j
  · by_cases h2 : i < xs.length
    · subst h1
      simp [h2]
    · subst h1
      simp [h2, List.getElem?_eq_none (Nat.le_of_not_lt h2)]
  · simp [h1]

theorem getD_set_self (xs : List Nat) (i v : Nat) (h : i < xs.length) :
    (xs.set i v).getD i 0 = v := by
  rw [getD_set, if_pos ⟨rfl, h⟩]

theorem getD_set_ne (xs : List Nat) (i j v : Nat) (h : j ≠ i) :
    (xs.set i v).getD j 0 = xs.getD j 0 := by
  rw [getD_set, if_neg (fun hh => h hh.1.symm)]

theorem wrap16_of_range (x : Int) (h1 : -32768 ≤ x) (h2 : x ≤ 32767) : wrap16 x = x := by
  unfold wrap16
  omega

theorem WF_exampleCore (rom reg : List Nat) (h1 : reg.length = 16)
    (h2 : ∀ v ∈ reg, v < 256) (h3 : ∀ v ∈ rom, v < 256) : WF (exampleCore rom reg) where
  reg_len := h1
  ram_len := List.length_replicate 256 0
  reg_byte := h2
  ram_byte := fun v hv => by rw [List.eq_of_mem_replicate hv]; decide
  rom_byte := h3
  selReg_lt := by show (0 : Nat) < 16; decide
  pointer_ge := by show (-32768 : Int) ≤ 0; decide
  pointer_le := by show (0 : Int) ≤ 32767; decide

theorem high_nibble_le (b : Nat) (h : b < 256) : b >>> 4 ≤ 15 := by
  rw [Nat.shiftRight_eq_div_pow]
  omega

/-- The core `new` builds from the bytes `data` of a decoded string. -/
theorem new_exampleCore (s data : List Nat) (hd : decodeString s = .ok data)
    (hle : data.length ≤ romSize) :
    new s = .ok (exampleCore (data ++ List.replicate (romSize - data.length) 0)
      (List.replicate 16 0)) :=
  new_of_decode s data hd hle

/-! ## The register accessor -/

/-- C4. On the core `new` builds from the empty string, with its 16 registers,
`getRegister` faults at the indices 16 and -1, where the claim has it return
zero; it returns the register at 0 and at 15, and zero from 17 on. -/
theorem getRegister_boundary :
    ∃ c, new [] = .ok c ∧ c.reg.length = 16 ∧
      getRegister c 16 = none ∧ getRegister c (-1) = none ∧
      getRegister c 0 = some 0 ∧ getRegister c 15 = some 0 ∧
      getRegister c 17 = some 0 := by
  refine ⟨_, new_exampleCore [] [] rfl (Nat.zero_le _), rfl, ?_, ?_, ?_, ?_, ?_⟩ <;> decide

/-! ## Halting -/

theorem fetch_head (x : Nat) (xs reg : List Nat) : Fetches (exampleCore (x :: xs) reg) x :=
  ⟨le_refl 0, by show (x :: xs)[(0 : Int).toNat]? = some x; simp⟩

theorem rom_byte_padded (data : List Nat) (n : Nat) (h : ∀ v ∈ data, v < 256) :
    ∀ v ∈ data ++ List.replicate n 0, v < 256 := by
  intro v hv
  rcases List.mem_append.1 hv with hv | hv
  · exact h v hv
  · rw [List.eq_of_mem_replicate hv]; decide

theorem fetched_lt (c : CPU) (b : Nat) (hw : WF c) (h : Fetches c b) : b < 256 :=
  hw.rom_byte b (List.getElem?_mem h.2)

theorem address_lt (c : CPU) (hw : WF c) (i : Nat) (hi : i < 16) : c.reg.getD i 0 < 256 :=
  hw.reg_byte _ (getD_mem c.reg i (by rw [hw.reg_len]; exact hi))

theorem DoCycle_true_of_opcode (c : CPU) (b : Nat) (hw : WF c) (hf : c.loadAsData = false)
    (h : Fetches c b) (h1 : 1 ≤ b >>> 4) (h2 : b >>> 4 ≤ 14) :
    ∃ c1, DoCycle c = some (c1, true) := by
  have hreg := hw.reg_len
  have hram := hw.ram_len
  have haddr := address_lt c hw 2 (by decide)
  interval_cases hop : b >>> 4
  · exact ⟨_, DoCycle_loadReg c b hf h hop⟩
  · exact ⟨_, DoCycle_loadRam c b hreg hram haddr hf h hop⟩
  · exact ⟨_, DoCycle_writeRam c b hreg hram haddr hf h hop⟩
  · exact ⟨_, DoCycle_move c b hreg hf h hop⟩
  · exact ⟨_, DoCycle_bitshift c b hreg hf h hop⟩
  · exact ⟨_, DoCycle_invert c b hreg hf h hop⟩
  · exact ⟨_, DoCycle_or c b hreg hf h hop⟩
  · exact ⟨_, DoCycle_and c b hreg hf h hop⟩
  · exact ⟨_, DoCycle_xor c b hreg hf h hop⟩
  · exact ⟨_, DoCycle_add c b hreg hf h hop⟩
  · exact ⟨_, DoCycle_sub c b hreg hf h hop⟩
  · exact ⟨_, DoCycle_compare c b hreg hf h hop⟩
  · exact ⟨_, DoCycle_skip c b hreg hf h hop⟩
  · exact ⟨_, DoCycle_jump c b hreg hf h hop⟩

/-- C5, as amended. In a well-formed state whose pointer is an index of the
program store, `DoCycle` does not fault. It returns true when the pending-load
flag is set and when the high nibble of the fetched byte is one of the opcodes
`0x1` to `0xE` that the `switch` names, and false when the flag is clear and the
high nibble is `0xF`. Whenever it returns false, the flag was clear, the high
nibble is none of `0x1` to `0xE`, and the core is the one before the cycle but
for the pointer, advanced by one in `int16` arithmetic, and the remembered
register index, overwritten with the low nibble of the fetched byte. -/
theorem DoCycle_false_cases (c : CPU) (b : Nat) (hw : WF c) (h : Fetches c b) :
    ∃ c1 r, DoCycle c = some (c1, r) ∧
      (c.loadAsData = true → r = true) ∧
      (c.loadAsData = false → 1 ≤ b >>> 4 → b >>> 4 ≤ 14 → r = true) ∧
      (c.loadAsData = false → b >>> 4 = 15 → r = false) ∧
      (r = false → c.loadAsData = false ∧ ¬ (1 ≤ b >>> 4 ∧ b >>> 4 ≤ 14) ∧
        c1 = { c with pointer := wrap16 (c.pointer + 1), selReg := b &&& 0x0F }) := by
  rcases Bool.eq_false_or_eq_true c.loadAsData with hf | hf
  · have hne : c.loadAsData ≠ false := by rw [hf]; decide
    exact ⟨_, true, DoCycle_data c b (by rw [hw.reg_len]; exact hw.selReg_lt) hf h,
      fun _ => rfl, fun hh => absurd hh hne, fun hh => absurd hh hne,
      fun hh => Bool.noConfusion hh⟩
  · have hne : c.loadAsData ≠ true := by rw [hf]; decide
    by_cases hmid : 1 ≤ b >>> 4 ∧ b >>> 4 ≤ 14
    · obtain ⟨c1, hc1⟩ := DoCycle_true_of_opcode c b hw hf h hmid.1 hmid.2
      refine ⟨c1, true, hc1, fun _ => rfl, fun _ _ _ => rfl, fun _ h15 => ?_,
        fun hh => Bool.noConfusion hh⟩
      omega
    · have hle := high_nibble_le b (fetched_lt c b hw h)
      have hop : b >>> 4 = 0 ∨ b >>> 4 = 15 := by omega
      exact ⟨_, false, DoCycle_halt c b hf h hop, fun hh => absurd hh hne,
        fun _ h1 h2 => absurd ⟨h1, h2⟩ hmid, fun _ _ => rfl, fun _ => ⟨hf, hmid, rfl⟩⟩

/-- The theorem `DoCycle_false_cases` at a core whose first program byte is
`0xF5`. -/
theorem DoCycle_false_cases_witness :
    ∃ c1 r, DoCycle (exampleCore [0xF5] exampleRegs) = some (c1, r) ∧
      ((exampleCore [0xF5] exampleRegs).loadAsData = true → r = true) ∧
      ((exampleCore [0xF5] exampleRegs).loadAsData = false →
        1 ≤ 0xF5 >>> 4 → 0xF5 >>> 4 ≤ 14 → r = true) ∧
      ((exampleCore [0xF5] exampleRegs).loadAsData = false → 0xF5 >>> 4 = 15 → r = false) ∧
      (r = false → (exampleCore [0xF5] exampleRegs).loadAsData = false ∧
        ¬ (1 ≤ 0xF5 >>> 4 ∧ 0xF5 >>> 4 ≤ 14) ∧
        c1 = { exampleCore [0xF5] exampleRegs with
          pointer := wrap16 ((exampleCore [0xF5] exampleRegs).pointer + 1)
          selReg := 0xF5 &&& 0x0F }) :=
  DoCycle_false_cases (exampleCore [0xF5] exampleRegs) 0xF5
    (WF_exampleCore _ _ (by decide) (by decide) (by decide)) (fetch_head _ _ _)

/-- C5, the claim as stated fails. On the core `new` builds from the string
`F5`, well formed and with the flag clear, the cycle halts on the byte `0xF5`
and leaves the remembered register index at 5, where it was 0: the pointer is
not the only change. On the core built from `05` the cycle halts as well,
though the high nibble of the byte `0x05` is `0x0` and not `0xF`. -/
theorem DoCycle_false_counterexample :
    (∃ c c1, new (ascii "F5") = .ok c ∧ WF c ∧ Fetches c 0xF5 ∧ c.loadAsData = false ∧
      DoCycle c = some (c1, false) ∧ c.selReg = 0 ∧ c1.selReg = 5 ∧
      c1 ≠ { c with pointer := c.pointer + 1 }) ∧
    (∃ d d1, new (ascii "05") = .ok d ∧ WF d ∧ Fetches d 0x05 ∧ d.loadAsData = false ∧
      DoCycle d = some (d1, false) ∧ 0x05 >>> 4 = 0) := by
  constructor
  · refine ⟨_, _, new_exampleCore (ascii "F5") [0xF5] rfl (by decide),
      WF_exampleCore _ _ rfl (by decide) (rom_byte_padded _ _ (by decide)),
      fetch_head _ _ _, rfl,
      DoCycle_halt _ 0xF5 rfl (fetch_head _ _ _) (Or.inr rfl), rfl, rfl, ?_⟩
    intro hh
    have := congrArg CPU.selReg hh
    exact absurd this (by decide)
  · exact ⟨_, _, new_exampleCore (ascii "05") [0x05] rfl (by decide),
      WF_exampleCore _ _ rfl (by decide) (rom_byte_padded _ _ (by decide)),
      fetch_head _ _ _, rfl,
      DoCycle_halt _ 0x05 rfl (fetch_head _ _ _) (Or.inl rfl), rfl⟩

/-! ## Load immediate -/

theorem twoCycles_some (c c1 c2 : CPU) (b1 b2 : Bool) (h1 : DoCycle c = some (c1, b1))
    (h2 : DoCycle c1 = some (c2, b2)) : twoCycles c = some (c2, b1, b2) := by
  simp only [twoCycles, h1, h2]

theorem twoCycles_none (c c1 : CPU) (b1 : Bool) (h1 : DoCycle c = some (c1, b1))
    (h2 : DoCycle c1 = none) : twoCycles c = none := by
  simp only [twoCycles, h1, h2]

theorem toNat_succ (p : Int) (h : 0 ≤ p) : (p + 1).toNat = p.toNat + 1 := by
  omega

theorem wrapRom_length : wrapRom.length = 65536 := by
  unfold wrapRom
  rw [List.length_append, List.length_replicate, List.length_cons, List.length_cons,
    List.length_cons, List.length_replicate]

theorem wrapRom_get (k : Nat) :
    wrapRom[32766 + k]? = (0x15 :: 0x15 :: 0x07 :: List.replicate 32767 0)[k]? := by
  unfold wrapRom
  rw [List.getElem?_append_right (by rw [List.length_replicate]; omega),
    List.length_replicate, Nat.add_sub_cancel_left]

theorem wrapRom_byte : ∀ v ∈ wrapRom, v < 256 := by
  intro v hv
  unfold wrapRom at hv
  rcases List.mem_append.1 hv with h | h
  · rw [List.eq_of_mem_replicate h]; decide
  · rcases List.mem_cons.1 h with h | h
    · rw [h]; decide
    · rcases List.mem_cons.1 h with h | h
      · rw [h]; decide
      · rcases List.mem_cons.1 h with h | h
        · rw [h]; decide
        · rw [List.eq_of_mem_replicate h]; decide

theorem WF_wrapCore (p : Nat) (hp : p ≤ 32767) : WF (wrapCore p) where
  reg_len := rfl
  ram_len := List.length_replicate 256 0
  reg_byte := by show ∀ v ∈ exampleRegs, v < 256; decide
  ram_byte := fun v hv => by rw [List.eq_of_mem_replicate hv]; decide
  rom_byte := wrapRom_byte
  selReg_lt := by show (0 : Nat) < 16; decide
  pointer_ge := by show (-32768 : Int) ≤ (p : Int); omega
  pointer_le := by show (p : Int) ≤ 32767; omega

theorem wrapRom_at0 : wrapRom[32766]? = some 0x15 :=
  (wrapRom_get 0).trans (by rw [List.getElem?_cons_zero])

theorem wrapRom_at1 : wrapRom[32767]? = some 0x15 :=
  (wrapRom_get 1).trans (by rw [List.getElem?_cons_succ, List.getElem?_cons_zero])

theorem wrapRom_at2 : wrapRom[32768]? = some 0x07 :=
  (wrapRom_get 2).trans
    (by rw [List.getElem?_cons_succ, List.getElem?_cons_succ, List.getElem?_cons_zero])

theorem wrapCore_fetch (p b : Nat) (h : wrapRom[p]? = some b) : Fetches (wrapCore p) b := by
  refine ⟨Int.natCast_nonneg _, ?_⟩
  show wrapRom[((p : Nat) : Int).toNat]? = some b
  rw [Int.toNat_ofNat, h]

theorem loadImmediate_steps (c : CPU) (R D : Nat) (hR : R < 16) (hw : WF c)
    (hf : c.loadAsData = false) (h1 : Fetches c (0x10 + R)) (hp : c.pointer + 1 ≤ 32767)
    (h2 : c.rom[c.pointer.toNat + 1]? = some D) :
    twoCycles c = some ({ c with
      reg := c.reg.set R D
      pointer := wrap16 (c.pointer + 2)
      loadAsData := false
      selReg := 0 }, true, true) := by
  have hlo : (0x10 + R) &&& 0x0F = R := nibble_lo 1 R hR
  have hp0 := h1.1
  have hstep1 := DoCycle_loadReg c (0x10 + R) hf h1 (nibble_hi 1 R hR)
  rw [hlo] at hstep1
  have hw1 : wrap16 (c.pointer + 1) = c.pointer + 1 :=
    wrap16_of_range _ (by omega) hp
  have hfetch2 : Fetches { c with
      pointer := wrap16 (c.pointer + 1), selReg := R, loadAsData := true } D := by
    refine ⟨?_, ?_⟩
    · show 0 ≤ wrap16 (c.pointer + 1)
      rw [hw1]; omega
    · show c.rom[(wrap16 (c.pointer + 1)).toNat]? = some D
      rw [hw1, toNat_succ _ hp0, h2]
  have hstep2 := DoCycle_data _ D (by show R < c.reg.length; rw [hw.reg_len]; exact hR)
    rfl hfetch2
  have hptr : wrap16 (wrap16 (c.pointer + 1) + 1) = wrap16 (c.pointer + 2) := by
    rw [hw1]; congr 1; ring
  rw [← hptr]
  exact twoCycles_some _ _ _ _ _ hstep1 hstep2

/-- C6, as amended. Let a well-formed state have the flag clear, the byte `0x1R`
at the pointer `p` and the byte `D` at `p + 1`, with `p + 1` at most 32767, the
largest `int16`. Then two `DoCycle` calls both return true and leave `D` in
register `R`, every other register, the working memory and the program store
unchanged, the flag clear, the remembered register index 0 and the pointer at
`p + 2` in `int16` arithmetic, which is `p + 2` when that is at most 32767. -/
theorem loadImmediate_two_cycles (c : CPU) (R D : Nat) (hR : R < 16) (hw : WF c)
    (hf : c.loadAsData = false) (h1 : Fetches c (0x10 + R)) (hp : c.pointer + 1 ≤ 32767)
    (h2 : c.rom[c.pointer.toNat + 1]? = some D) :
    ∃ c2, twoCycles c = some (c2, true, true) ∧
      c2.reg.getD R 0 = D ∧ (∀ i, i ≠ R → c2.reg.getD i 0 = c.reg.getD i 0) ∧
      c2.reg.length = 16 ∧ c2.ram = c.ram ∧ c2.rom = c.rom ∧
      c2.loadAsData = false ∧ c2.selReg = 0 ∧
      c2.pointer = wrap16 (c.pointer + 2) ∧
      (c.pointer + 2 ≤ 32767 → c2.pointer = c.pointer + 2) := by
  have hp0 := h1.1
  have hlen : R < c.reg.length := by rw [hw.reg_len]; exact hR
  refine ⟨_, loadImmediate_steps c R D hR hw hf h1 hp h2, ?_, ?_, ?_, rfl, rfl, rfl, rfl,
    rfl, ?_⟩
  · exact getD_set_self c.reg R D hlen
  · intro i hi
    exact getD_set_ne c.reg R i D hi
  · show (c.reg.set R D).length = 16
    rw [List.length_set, hw.reg_len]
  · intro h
    exact wrap16_of_range _ (by omega) h

/-- The theorem `loadImmediate_two_cycles` at the pointer 32766 of `wrapRom`,
which holds `0x15` there and `0x15` at 32767. -/
theorem loadImmediate_two_cycles_witness :
    ∃ c2, twoCycles (wrapCore 32766) = some (c2, true, true) ∧
      c2.reg.getD 5 0 = 0x15 ∧ (∀ i, i ≠ 5 → c2.reg.getD i 0 = (wrapCore 32766).reg.getD i 0) ∧
      c2.reg.length = 16 ∧ c2.ram = (wrapCore 32766).ram ∧ c2.rom = (wrapCore 32766).rom ∧
      c2.loadAsData = false ∧ c2.selReg = 0 ∧
      c2.pointer = wrap16 ((wrapCore 32766).pointer + 2) ∧
      ((wrapCore 32766).pointer + 2 ≤ 32767 → c2.pointer = (wrapCore 32766).pointer + 2) :=
  loadImmediate_two_cycles (wrapCore 32766) 5 0x15 (by decide) (WF_wrapCore 32766 (by decide)) rfl
    (wrapCore_fetch 32766 0x15 wrapRom_at0) (by decide)
    (by show wrapRom[((32766 : Nat) : Int).toNat + 1]? = some 0x15
        rw [Int.toNat_ofNat]; exact wrapRom_at1)

/-- C6, the claim as stated fails. The core over `wrapRom` is well formed, has
65,536 program bytes and the flag clear. With the pointer at 32767, where the
store holds `0x15` and the next address holds `0x07`, the first cycle returns
true and the second faults, the pointer having wrapped to -32768. With the
pointer at 32766, where the store holds `0x15` followed by `0x15`, both cycles
return true and the pointer ends at -32768, not at 32768. -/
theorem loadImmediate_counterexample :
    (WF (wrapCore 32767) ∧ (wrapCore 32767).rom.length = 65536 ∧
      (wrapCore 32767).loadAsData = false ∧ (wrapCore 32767).pointer = 32767 ∧
      (wrapCore 32767).rom[32767]? = some 0x15 ∧ (wrapCore 32767).rom[32768]? = some 0x07 ∧
      (∃ c1, DoCycle (wrapCore 32767) = some (c1, true) ∧ c1.pointer = -32768 ∧
        DoCycle c1 = none) ∧
      twoCycles (wrapCore 32767) = none) ∧
    (WF (wrapCore 32766) ∧ (wrapCore 32766).loadAsData = false ∧
      (wrapCore 32766).pointer = 32766 ∧
      (wrapCore 32766).rom[32766]? = some 0x15 ∧ (wrapCore 32766).rom[32767]? = some 0x15 ∧
      ∃ c2, twoCycles (wrapCore 32766) = some (c2, true, true) ∧ c2.pointer = -32768) := by
  have hstep := DoCycle_loadReg (wrapCore 32767) 0x15 rfl
    (wrapCore_fetch 32767 0x15 wrapRom_at1) rfl
  have hneg : wrap16 ((wrapCore 32767).pointer + 1) = -32768 := by
    show wrap16 (((32767 : Nat) : Int) + 1) = -32768
    unfold wrap16
    omega
  have hnone : DoCycle { wrapCore 32767 with
      pointer := wrap16 ((wrapCore 32767).pointer + 1)
      selReg := 0x15 &&& 0x0F
      loadAsData := true } = none := by
    unfold DoCycle
    rw [if_pos (by show wrap16 ((wrapCore 32767).pointer + 1) < 0; rw [hneg]; omega)]
  refine ⟨⟨WF_wrapCore 32767 (by decide), wrapRom_length, rfl, rfl, wrapRom_at1, wrapRom_at2,
    ⟨_, hstep, hneg, hnone⟩, twoCycles_none _ _ _ hstep hnone⟩,
    WF_wrapCore 32766 (by decide), rfl, rfl, wrapRom_at0, wrapRom_at1, ?_⟩
  refine ⟨_, loadImmediate_steps (wrapCore 32766) 5 0x15
    (by decide) (WF_wrapCore 32766 (by decide)) rfl
    (wrapCore_fetch 32766 0x15 wrapRom_at0) (by decide)
    (by show wrapRom[((32766 : Nat) : Int).toNat + 1]? = some 0x15
        rw [Int.toNat_ofNat]; exact wrapRom_at1), ?_⟩
  show wrap16 (((32766 : Nat) : Int) + 2) = -32768
  unfold wrap16
  omega

/-! ## Swap -/

theorem list_ext_getD (xs ys : List Nat) (hl : xs.length = ys.length)
    (h : ∀ i, i < xs.length → xs.getD i 0 = ys.getD i 0) : xs = ys :=
  List.ext_getElem hl (fun i h1 h2 => by
    have := h i h1
    rwa [List.getD_eq_getElem _ _ h1, List.getD_eq_getElem _ _ h2] at this)

theorem swap_getD (xs : List Nat) (R i : Nat) (hR : R < xs.length) (h3 : 3 < xs.length) :
    ((xs.set 3 (xs.getD R 0)).set R (xs.getD 3 0)).getD i 0 =
      if i = R then xs.getD 3 0 else if i = 3 then xs.getD R 0 else xs.getD i 0 := by
  rw [getD_set, getD_set, List.length_set]
  by_cases h1 : i = R
  · subst h1
    rw [if_pos ⟨rfl, hR⟩, if_pos rfl]
  · rw [if_neg (fun hh => h1 hh.1.symm), if_neg h1]
    by_cases h2 : i = 3
    · subst h2
      rw [if_pos ⟨rfl, h3⟩, if_pos rfl]
    · rw [if_neg (fun hh => h2 hh.1.symm), if_neg h2]

theorem swap_twice (xs : List Nat) (R : Nat) (hR : R < xs.length) (h3 : 3 < xs.length) :
    (((xs.set 3 (xs.getD R 0)).set R (xs.getD 3 0)).set 3
        (((xs.set 3 (xs.getD R 0)).set R (xs.getD 3 0)).getD R 0)).set R
      (((xs.set 3 (xs.getD R 0)).set R (xs.getD 3 0)).getD 3 0) = xs := by
  have hl : ((xs.set 3 (xs.getD R 0)).set R (xs.getD 3 0)).length = xs.length := by
    rw [List.length_set, List.length_set]
  apply list_ext_getD
  · rw [List.length_set, List.length_set, hl]
  · intro i _
    rw [swap_getD _ R i (by rw [hl]; exact hR) (by rw [hl]; exact h3),
      swap_getD xs R 3 hR h3, swap_getD xs R R hR h3, swap_getD xs R i hR h3]
    by_cases h1 : i = R
    · subst h1
      by_cases h2 : i = 3
      · subst h2
        rw [if_pos rfl, if_pos rfl]
      · rw [if_pos rfl, if_neg (fun hh => h2 hh.symm), if_pos rfl]
    · by_cases h2 : i = 3
      · subst h2
        rw [if_neg h1, if_pos rfl, if_pos rfl]
      · rw [if_neg h1, if_neg h2, if_neg h1, if_neg h2]

theorem fetch_next (c c1 : CPU) (b : Nat) (h0 : 0 ≤ c.pointer)
    (hp : c.pointer + 1 ≤ 32767) (hrom : c1.rom = c.rom)
    (hptr : c1.pointer = wrap16 (c.pointer + 1))
    (h2 : c.rom[c.pointer.toNat + 1]? = some b) : Fetches c1 b := by
  have hw1 : wrap16 (c.pointer + 1) = c.pointer + 1 := wrap16_of_range _ (by omega) hp
  refine ⟨?_, ?_⟩
  · rw [hptr, hw1]; omega
  · rw [hrom, hptr, hw1, toNat_succ _ h0, h2]

/-- C7. In a well-formed state with the flag clear, a cycle on the byte `0x4R`
returns true, puts the old value of register `R` in register 3 and the old
value of register 3 in register `R` (nothing changes when `R` is 3), and
changes no other register, no memory cell and no program byte. When the next
cycle fetches `0x4R` again, it returns true and leaves the register file and
the working memory as they were before the two cycles. -/
theorem move_swaps (c : CPU) (R : Nat) (hR : R < 16) (hw : WF c)
    (hf : c.loadAsData = false) (h : Fetches c (0x40 + R)) :
    ∃ c1, DoCycle c = some (c1, true) ∧
      c1.reg.getD 3 0 = c.reg.getD R 0 ∧ c1.reg.getD R 0 = c.reg.getD 3 0 ∧
      (∀ i, i ≠ 3 → i ≠ R → c1.reg.getD i 0 = c.reg.getD i 0) ∧
      c1.reg.length = 16 ∧ c1.ram = c.ram ∧ c1.rom = c.rom ∧
      c1.pointer = wrap16 (c.pointer + 1) ∧
      (Fetches c1 (0x40 + R) →
        ∃ c2, DoCycle c1 = some (c2, true) ∧ c2.reg = c.reg ∧ c2.ram = c.ram) := by
  have hlo : (0x40 + R) &&& 0x0F = R := nibble_lo 4 R hR
  have hlenR : R < c.reg.length := by rw [hw.reg_len]; exact hR
  have hlen3 : 3 < c.reg.length := by rw [hw.reg_len]; decide
  have hstep1 := DoCycle_move c (0x40 + R) hw.reg_len hf h (nibble_hi 4 R hR)
  rw [hlo] at hstep1
  have hl1 : ((c.reg.set 3 (c.reg.getD R 0)).set R (c.reg.getD 3 0)).length = 16 := by
    rw [List.length_set, List.length_set, hw.reg_len]
  refine ⟨_, hstep1, ?_, ?_, ?_, hl1, rfl, rfl, rfl, ?_⟩
  · show ((c.reg.set 3 (c.reg.getD R 0)).set R (c.reg.getD 3 0)).getD 3 0 = c.reg.getD R 0
    rw [swap_getD c.reg R 3 hlenR hlen3]
    by_cases h3 : 3 = R
    · rw [if_pos h3, ← h3]
    · rw [if_neg h3, if_pos rfl]
  · show ((c.reg.set 3 (c.reg.getD R 0)).set R (c.reg.getD 3 0)).getD R 0 = c.reg.getD 3 0
    rw [swap_getD c.reg R R hlenR hlen3, if_pos rfl]
  · intro i hi3 hiR
    show ((c.reg.set 3 (c.reg.getD R 0)).set R (c.reg.getD 3 0)).getD i 0 = c.reg.getD i 0
    rw [swap_getD c.reg R i hlenR hlen3, if_neg hiR, if_neg hi3]
  · intro hfetch2
    have hstep2 := DoCycle_move { c with
        pointer := wrap16 (c.pointer + 1)
        selReg := R
        reg := (c.reg.set 3 (c.reg.getD R 0)).set R (c.reg.getD 3 0) } (0x40 + R) hl1 hf hfetch2
      (nibble_hi 4 R hR)
    rw [hlo] at hstep2
    exact ⟨_, hstep2, swap_twice c.reg R hlenR hlen3, rfl⟩

/-- The theorem `move_swaps` at the program `45 45` over the registers
`10, ..., 25`: after one cycle register 3 holds 15 and register 5 holds 13, and
the second cycle restores the register file. -/
theorem move_swaps_witness :
    ∃ c1, DoCycle (exampleCore [0x45, 0x45] exampleRegs) = some (c1, true) ∧
      c1.reg.getD 3 0 = 15 ∧ c1.reg.getD 5 0 = 13 ∧
      ∃ c2, DoCycle c1 = some (c2, true) ∧ c2.reg = exampleRegs := by
  obtain ⟨c1, h1, h3, h5, -, -, -, hrom, hptr, h2⟩ :=
    move_swaps (exampleCore [0x45, 0x45] exampleRegs) 5
      (by decide) (WF_exampleCore _ _ (by decide) (by decide) (by decide)) rfl (fetch_head _ _ _)
  obtain ⟨c2, hc2, hreg, -⟩ := h2
    (fetch_next (exampleCore [0x45, 0x45] exampleRegs) c1 0x45 (by decide) (by decide)
      hrom hptr (by decide))
  exact ⟨c1, h1, h3, h5, c2, hc2, hreg⟩

/-! ## Compare -/

/-- C8. In a well-formed state with the flag clear, a cycle on the byte `0xCR`
returns true and leaves the working memory unchanged. When register 0 is
greater than register 1, as natural numbers below 256, register `R` becomes 1
and no other register changes; otherwise the whole register file, register `R`
included, is left as it was. -/
theorem compare_sets_or_keeps (c : CPU) (R : Nat) (hR : R < 16) (hw : WF c)
    (hf : c.loadAsData = false) (h : Fetches c (0xC0 + R)) :
    ∃ c1, DoCycle c = some (c1, true) ∧ c1.ram = c.ram ∧ c1.reg.length = 16 ∧
      (c.reg.getD 0 0 > c.reg.getD 1 0 →
        c1.reg.getD R 0 = 0x01 ∧ ∀ i, i ≠ R → c1.reg.getD i 0 = c.reg.getD i 0) ∧
      (c.reg.getD 0 0 ≤ c.reg.getD 1 0 → c1.reg = c.reg) := by
  have hlo : (0xC0 + R) &&& 0x0F = R := nibble_lo 12 R hR
  have hlenR : R < c.reg.length := by rw [hw.reg_len]; exact hR
  have hstep := DoCycle_compare c (0xC0 + R) hw.reg_len hf h (nibble_hi 12 R hR)
  rw [hlo] at hstep
  refine ⟨_, hstep, rfl, ?_, ?_, ?_⟩
  · show (if c.reg.getD 0 0 > c.reg.getD 1 0 then c.reg.set R 0x01 else c.reg).length = 16
    split_ifs
    · rw [List.length_set, hw.reg_len]
    · exact hw.reg_len
  · intro hgt
    show (if c.reg.getD 0 0 > c.reg.getD 1 0 then c.reg.set R 0x01 else c.reg).getD R 0 = 0x01 ∧
      ∀ i, i ≠ R → (if c.reg.getD 0 0 > c.reg.getD 1 0 then c.reg.set R 0x01
        else c.reg).getD i 0 = c.reg.getD i 0
    rw [if_pos hgt]
    exact ⟨getD_set_self c.reg R 1 hlenR, fun i hi => getD_set_ne c.reg R i 1 hi⟩
  · intro hle
    show (if c.reg.getD 0 0 > c.reg.getD 1 0 then c.reg.set R 0x01 else c.reg) = c.reg
    rw [if_neg (Nat.not_lt.2 hle)]

/-- The theorem `compare_sets_or_keeps` at the program `C5`: over registers
with `0xFF` and `0x02` in registers 0 and 1, register 5 becomes 1; over the
registers `10, 11, ...` the register file is unchanged, register 5 keeping its
value 15. -/
theorem compare_sets_or_keeps_witness :
    (∃ c1, DoCycle (exampleCore [0xC5] aluRegs) = some (c1, true) ∧ c1.reg.getD 5 0 = 0x01) ∧
    (∃ c1, DoCycle (exampleCore [0xC5] exampleRegs) = some (c1, true) ∧
      c1.reg = exampleRegs ∧ c1.reg.getD 5 0 = 15) := by
  constructor
  · obtain ⟨c1, h1, -, -, hgt, -⟩ := compare_sets_or_keeps (exampleCore [0xC5] aluRegs) 5
      (by decide) (WF_exampleCore _ _ (by decide) (by decide) (by decide)) rfl (fetch_head _ _ _)
    exact ⟨c1, h1, (hgt (by decide)).1⟩
  · obtain ⟨c1, h1, -, -, -, hle⟩ := compare_sets_or_keeps (exampleCore [0xC5] exampleRegs) 5
      (by decide) (WF_exampleCore _ _ (by decide) (by decide) (by decide)) rfl (fetch_head _ _ _)
    have hreg := hle (by decide)
    exact ⟨c1, h1, hreg, by rw [hreg]; decide⟩

/-! ## Binary operations -/

theorem wrap8_sub (a b : Nat) (ha : a < 256) (hb : b < 256) :
    wrap8 ((a : Int) - (b : Int)) = if b ≤ a then a - b else 256 + a - b := by
  unfold wrap8
  split_ifs with h <;> omega

theorem alu_frame (c : CPU) (R v : Nat) (hR : R < 16) (hw : WF c) :
    (c.reg.set R v).getD R 0 = v ∧
      (∀ i, i ≠ R → (c.reg.set R v).getD i 0 = c.reg.getD i 0) ∧
      (c.reg.set R v).length = 16 :=
  ⟨getD_set_self c.reg R v (by rw [hw.reg_len]; exact hR),
    fun i hi => getD_set_ne c.reg R i v hi,
    by rw [List.length_set, hw.reg_len]⟩

theorem alu_step (c : CPU) (op R : Nat) (hop : 7 ≤ op ∧ op ≤ 11) (hR : R < 16) (hw : WF c)
    (hf : c.loadAsData = false) (h : Fetches c (16 * op + R)) :
    DoCycle c = some ({ c with
      pointer := wrap16 (c.pointer + 1)
      selReg := R
      reg := c.reg.set R (aluResult op (c.reg.getD 0 0) (c.reg.getD 1 0)) }, true) := by
  have hlo := nibble_lo op R hR
  have hhi := nibble_hi op R hR
  have ha := address_lt c hw 0 (by decide)
  have hb := address_lt c hw 1 (by decide)
  obtain ⟨h7, h11⟩ := hop
  interval_cases op
  · have hstep := DoCycle_or c _ hw.reg_len hf h hhi
    rw [hlo] at hstep
    exact hstep
  · have hstep := DoCycle_and c _ hw.reg_len hf h hhi
    rw [hlo] at hstep
    exact hstep
  · have hstep := DoCycle_xor c _ hw.reg_len hf h hhi
    rw [hlo] at hstep
    exact hstep
  · have hstep := DoCycle_add c _ hw.reg_len hf h hhi
    rw [hlo] at hstep
    exact hstep
  · have hstep := DoCycle_sub c _ hw.reg_len hf h hhi
    rw [hlo, wrap8_sub _ _ ha hb] at hstep
    exact hstep

/-- C9. In a well-formed state with the flag clear, a cycle on the byte with
opcode `op` among `0x7` (OR), `0x8` (AND), `0x9` (XOR), `0xA` (ADD), `0xB` (SUB)
and low nibble `R` returns true and writes to register `R` the result of the
operation on the values `a` of register 0 and `b` of register 1 read before the
write: the bitwise or, and, exclusive or, the sum modulo 256, the difference
modulo 256. No other register, no memory cell, no program byte and not the
pending-load flag changes. With `a = 0xFF` and `b = 0x02`, ADD gives `0x01` and
SUB gives `0xFD`. -/
theorem alu_wraps (c : CPU) (op R : Nat) (hop : 7 ≤ op ∧ op ≤ 11) (hR : R < 16) (hw : WF c)
    (hf : c.loadAsData = false) (h : Fetches c (16 * op + R)) :
    ∃ c1, DoCycle c = some (c1, true) ∧
      c1.reg = c.reg.set R (aluResult op (c.reg.getD 0 0) (c.reg.getD 1 0)) ∧
      c1.reg.getD R 0 = aluResult op (c.reg.getD 0 0) (c.reg.getD 1 0) ∧
      (∀ i, i ≠ R → c1.reg.getD i 0 = c.reg.getD i 0) ∧
      c1.reg.length = 16 ∧ c1.ram = c.ram ∧ c1.rom = c.rom ∧ c1.loadAsData = false ∧
      (c.reg.getD 0 0 = 0xFF → c.reg.getD 1 0 = 0x02 →
        (op = 0xA → c1.reg.getD R 0 = 0x01) ∧ (op = 0xB → c1.reg.getD R 0 = 0xFD)) := by
  obtain ⟨f1, f2, f3⟩ := alu_frame c R (aluResult op (c.reg.getD 0 0) (c.reg.getD 1 0)) hR hw
  refine ⟨_, alu_step c op R hop hR hw hf h, rfl, f1, f2, f3, rfl, rfl, hf, ?_⟩
  intro ha hb
  show (op = 0xA → (c.reg.set R (aluResult op (c.reg.getD 0 0) (c.reg.getD 1 0))).getD R 0
      = 0x01) ∧
    (op = 0xB → (c.reg.set R (aluResult op (c.reg.getD 0 0) (c.reg.getD 1 0))).getD R 0 = 0xFD)
  rw [f1, ha, hb]
  constructor
  · intro h10; subst h10; decide
  · intro h11; subst h11; decide

/-- The theorem `alu_wraps` over registers with `0xFF` and `0x02` in registers 0
and 1: the program `A5` (ADD) leaves `0x01` in register 5, the program `B5`
(SUB) leaves `0xFD`, and the program `A0` overwrites the operand in register 0
with `0x01`. -/
theorem alu_wraps_witness :
    (∃ c1, DoCycle (exampleCore [0xA5] aluRegs) = some (c1, true) ∧ c1.reg.getD 5 0 = 0x01) ∧
    (∃ c1, DoCycle (exampleCore [0xB5] aluRegs) = some (c1, true) ∧ c1.reg.getD 5 0 = 0xFD) ∧
    (∃ c1, DoCycle (exampleCore [0xA0] aluRegs) = some (c1, true) ∧ c1.reg.getD 0 0 = 0x01) := by
  refine ⟨?_, ?_, ?_⟩
  · obtain ⟨c1, h1, -, -, -, -, -, -, -, hx⟩ := alu_wraps (exampleCore [0xA5] aluRegs) 0xA 5
      (by decide) (by decide) (WF_exampleCore _ _ (by decide) (by decide) (by decide)) rfl
      (fetch_head _ _ _)
    exact ⟨c1, h1, (hx (by decide) (by decide)).1 rfl⟩
  · obtain ⟨c1, h1, -, -, -, -, -, -, -, hx⟩ := alu_wraps (exampleCore [0xB5] aluRegs) 0xB 5
      (by decide) (by decide) (WF_exampleCore _ _ (by decide) (by decide) (by decide)) rfl
      (fetch_head _ _ _)
    exact ⟨c1, h1, (hx (by decide) (by decide)).2 rfl⟩
  · obtain ⟨c1, h1, -, -, -, -, -, -, -, hx⟩ := alu_wraps (exampleCore [0xA0] aluRegs) 0xA 0
      (by decide) (by decide) (WF_exampleCore _ _ (by decide) (by decide) (by decide)) rfl
      (fetch_head _ _ _)
    exact ⟨c1, h1, (hx (by decide) (by decide)).1 rfl⟩

/-! ## Conditional skip -/

theorem toNat_add_two (p : Int) (h : 0 ≤ p) : (p + 2).toNat = p.toNat + 2 := by
  omega

/-- C10. In a well-formed state with the flag clear and a pointer `p` with
`p + 2` at most 32767, a cycle on the byte `0xDR` returns true and changes no
register, no memory cell, no program byte and not the flag. When the lowest bit
of register `R` is 1 the pointer is left at `p + 2`, so that the next cycle
fetches the byte at `p + 2`; when it is 0 the pointer is left at `p + 1`, so
that the next cycle fetches the byte at `p + 1`. -/
theorem skip_if_odd (c : CPU) (R : Nat) (hR : R < 16) (hw : WF c)
    (hf : c.loadAsData = false) (h : Fetches c (0xD0 + R)) (hp : c.pointer + 2 ≤ 32767) :
    ∃ c1, DoCycle c = some (c1, true) ∧
      c1.reg = c.reg ∧ c1.ram = c.ram ∧ c1.rom = c.rom ∧ c1.loadAsData = false ∧
      (c.reg.getD R 0 % 2 = 1 →
        c1.pointer = c.pointer + 2 ∧
        ∀ d, Fetches c1 d ↔ c.rom[c.pointer.toNat + 2]? = some d) ∧
      (c.reg.getD R 0 % 2 = 0 →
        c1.pointer = c.pointer + 1 ∧
        ∀ d, Fetches c1 d ↔ c.rom[c.pointer.toNat + 1]? = some d) := by
  have hlo : (0xD0 + R) &&& 0x0F = R := nibble_lo 13 R hR
  have hp0 := h.1
  have hstep := DoCycle_skip c (0xD0 + R) hw.reg_len hf h (nibble_hi 13 R hR)
  rw [hlo, Nat.and_one_is_mod] at hstep
  have hw1 : wrap16 (c.pointer + 1) = c.pointer + 1 := wrap16_of_range _ (by omega) (by omega)
  have hw2 : wrap16 (c.pointer + 1 + 1) = c.pointer + 2 := by
    rw [wrap16_of_range _ (by omega) (by omega)]; ring
  rw [hw1, hw2] at hstep
  refine ⟨_, hstep, rfl, rfl, rfl, hf, ?_, ?_⟩
  · intro hodd
    have hptr : (if c.reg.getD R 0 % 2 = 1 then c.pointer + 2 else c.pointer + 1)
        = c.pointer + 2 := if_pos hodd
    refine ⟨hptr, fun d => ?_⟩
    show (0 ≤ (if c.reg.getD R 0 % 2 = 1 then c.pointer + 2 else c.pointer + 1) ∧
      c.rom[(if c.reg.getD R 0 % 2 = 1 then c.pointer + 2 else c.pointer + 1).toNat]?
        = some d) ↔ _
    rw [hptr, toNat_add_two _ hp0]
    exact ⟨fun hh => hh.2, fun hh => ⟨by omega, hh⟩⟩
  · intro heven
    have hptr : (if c.reg.getD R 0 % 2 = 1 then c.pointer + 2 else c.pointer + 1)
        = c.pointer + 1 := if_neg (by omega)
    refine ⟨hptr, fun d => ?_⟩
    show (0 ≤ (if c.reg.getD R 0 % 2 = 1 then c.pointer + 2 else c.pointer + 1) ∧
      c.rom[(if c.reg.getD R 0 % 2 = 1 then c.pointer + 2 else c.pointer + 1).toNat]?
        = some d) ↔ _
    rw [hptr, toNat_succ _ hp0]
    exact ⟨fun hh => hh.2, fun hh => ⟨by omega, hh⟩⟩

/-- The theorem `skip_if_odd` at the program `D5 ..` over registers whose
register 5 holds `0x01`, where the pointer goes from 0 to 2, and at the program
`D2 ..` over the same registers, whose register 2 holds `0x02`, where it goes
to 1. -/
theorem skip_if_odd_witness :
    (∃ c1, DoCycle (exampleCore [0xD5, 0x00, 0x00] skipRegs) = some (c1, true) ∧
      skipRegs.getD 5 0 = 0x01 ∧ c1.pointer = 2) ∧
    (∃ c1, DoCycle (exampleCore [0xD2, 0x00, 0x00] skipRegs) = some (c1, true) ∧
      skipRegs.getD 2 0 = 0x02 ∧ c1.pointer = 1) := by
  constructor
  · obtain ⟨c1, h1, -, -, -, -, hodd, -⟩ := skip_if_odd (exampleCore [0xD5, 0x00, 0x00] skipRegs) 5
      (by decide) (WF_exampleCore _ _ (by decide) (by decide) (by decide)) rfl (fetch_head _ _ _)
      (by decide)
    exact ⟨c1, h1, rfl, (hodd (by decide)).1⟩
  · obtain ⟨c1, h1, -, -, -, -, -, heven⟩ := skip_if_odd
      (exampleCore [0xD2, 0x00, 0x00] skipRegs) 2
      (by decide) (WF_exampleCore _ _ (by decide) (by decide) (by decide)) rfl (fetch_head _ _ _)
      (by decide)
    exact ⟨c1, h1, rfl, (heven (by decide)).1⟩

/-! ## Jump -/

theorem jump_target (hi lo : Nat) (hhi : hi < 256) (hlo : lo < 256) :
    wrap16 (wrap16 ((hi : Int) * 2 ^ 8) + (lo : Int)) = wrap16 (256 * (hi : Int) + (lo : Int)) ∧
    (hi < 0x80 → wrap16 (256 * (hi : Int) + (lo : Int)) = 256 * (hi : Int) + (lo : Int)) ∧
    (0x80 ≤ hi →
      wrap16 (256 * (hi : Int) + (lo : Int)) = 256 * (hi : Int) + (lo : Int) - 65536) := by
  have e : (2 : Int) ^ 8 = 256 := by norm_num
  rw [e]
  unfold wrap16
  refine ⟨by omega, fun h => by omega, fun h => by omega⟩

theorem jump_step (c : CPU) (R : Nat) (hR : R < 16) (hw : WF c)
    (hf : c.loadAsData = false) (h : Fetches c (0xE0 + R)) :
    DoCycle c = some ({ c with
      pointer := wrap16 (256 * (c.reg.getD 4 0 : Int) + (c.reg.getD R 0 : Int))
      selReg := R }, true) := by
  have hlo : (0xE0 + R) &&& 0x0F = R := nibble_lo 14 R hR
  have hstep := DoCycle_jump c (0xE0 + R) hw.reg_len hf h (nibble_hi 14 R hR)
  rw [hlo, (jump_target _ _ (address_lt c hw 4 (by decide)) (address_lt c hw R hR)).1] at hstep
  exact hstep

/-- C11, as amended. In a well-formed state with the flag clear, a cycle on the
byte `0xER` returns true, leaves the registers, the working memory and the
program store unchanged and sets the pointer to `256 * reg[4] + reg[R]` reduced
to the `int16` range: that number itself, between 0 and 32767, when `reg[4]` is
below `0x80`, and that number minus 65536, a negative pointer, when `reg[4]` is
`0x80` or more. With `reg[4] = 0x01` and `reg[R] = 0x02` the pointer becomes
`0x0102`. -/
theorem jump_pointer (c : CPU) (R : Nat) (hR : R < 16) (hw : WF c)
    (hf : c.loadAsData = false) (h : Fetches c (0xE0 + R)) :
    ∃ c1, DoCycle c = some (c1, true) ∧
      c1.reg = c.reg ∧ c1.ram = c.ram ∧ c1.rom = c.rom ∧
      c1.pointer = wrap16 (256 * (c.reg.getD 4 0 : Int) + (c.reg.getD R 0 : Int)) ∧
      (c.reg.getD 4 0 < 0x80 →
        c1.pointer = 256 * (c.reg.getD 4 0 : Int) + (c.reg.getD R 0 : Int)) ∧
      (0x80 ≤ c.reg.getD 4 0 →
        c1.pointer = 256 * (c.reg.getD 4 0 : Int) + (c.reg.getD R 0 : Int) - 65536 ∧
        c1.pointer < 0) ∧
      (c.reg.getD 4 0 = 0x01 → c.reg.getD R 0 = 0x02 → c1.pointer = 0x0102) := by
  have h4 := address_lt c hw 4 (by decide)
  have hr := address_lt c hw R hR
  obtain ⟨-, hlow, hhigh⟩ := jump_target _ _ h4 hr
  refine ⟨_, jump_step c R hR hw hf h, rfl, rfl, rfl, rfl, hlow, fun h80 => ?_, fun e4 er => ?_⟩
  · have := hhigh h80
    exact ⟨this, by
      show wrap16 (256 * (c.reg.getD 4 0 : Int) + (c.reg.getD R 0 : Int)) < 0
      rw [this]; omega⟩
  · show wrap16 (256 * (c.reg.getD 4 0 : Int) + (c.reg.getD R 0 : Int)) = 0x0102
    rw [hlow (by omega), e4, er]
    norm_num

/-- The theorem `jump_pointer` at the program `E5` over registers with `0x01`
in register 4 and `0x02` in register 5: the pointer becomes `0x0102`. -/
theorem jump_pointer_witness :
    ∃ c1, DoCycle (exampleCore [0xE5] jumpLowRegs) = some (c1, true) ∧ c1.pointer = 0x0102 := by
  obtain ⟨c1, h1, -, -, -, -, -, -, hx⟩ := jump_pointer (exampleCore [0xE5] jumpLowRegs) 5
    (by decide) (WF_exampleCore _ _ (by decide) (by decide) (by decide)) rfl (fetch_head _ _ _)
  exact ⟨c1, h1, hx (by decide) (by decide)⟩

/-- C11, the claim as stated fails. Over registers with `0x80` in register 4
and zero in register 0, the state being well formed with the flag clear, the
cycle on the byte `0xE0` returns true and leaves the pointer at -32768, which is
neither `256 * 0x80 + 0 = 32768` nor a number between 0 and 65535. -/
theorem jump_pointer_counterexample :
    WF (exampleCore [0xE0] jumpRegs) ∧ (exampleCore [0xE0] jumpRegs).loadAsData = false ∧
    Fetches (exampleCore [0xE0] jumpRegs) 0xE0 ∧
    jumpRegs.getD 4 0 = 0x80 ∧ jumpRegs.getD 0 0 = 0 ∧
    ∃ c1, DoCycle (exampleCore [0xE0] jumpRegs) = some (c1, true) ∧ c1.pointer = -32768 ∧
      c1.pointer ≠ 256 * 0x80 + 0 ∧ ¬ (0 ≤ c1.pointer ∧ c1.pointer ≤ 65535) := by
  have hw : WF (exampleCore [0xE0] jumpRegs) :=
    WF_exampleCore _ _ (by decide) (by decide) (by decide)
  have hstep := jump_step (exampleCore [0xE0] jumpRegs) 0 (by decide) hw rfl (fetch_head _ _ _)
  have hp : wrap16 (256 * ((exampleCore [0xE0] jumpRegs).reg.getD 4 0 : Int) +
      ((exampleCore [0xE0] jumpRegs).reg.getD 0 0 : Int)) = -32768 := by
    show wrap16 (256 * ((0x80 : Nat) : Int) + ((0 : Nat) : Int)) = -32768
    unfold wrap16
    omega
  refine ⟨hw, rfl, fetch_head _ _ _, rfl, rfl, _, hstep, hp, ?_, ?_⟩
  · show wrap16 _ ≠ _
    rw [hp]; omega
  · show ¬ (0 ≤ wrap16 _ ∧ wrap16 _ ≤ 65535)
    rw [hp]; omega

/-! ## The end-to-end scenario -/

theorem doCycles_succ (n : Nat) (c c1 c2 : CPU) (b : Bool) (bs : List Bool)
    (h1 : DoCycle c = some (c1, b)) (h2 : doCycles n c1 = some (c2, bs)) :
    doCycles (n + 1) c = some (c2, b :: bs) := by
  simp only [doCycles, h1, h2]

theorem doCycles_snoc (n : Nat) : ∀ (c c1 c2 : CPU) (b : Bool) (bs : List Bool),
    doCycles n c = some (c1, bs) → DoCycle c1 = some (c2, b) →
    doCycles (n + 1) c = some (c2, bs ++ [b]) := by
  induction n with
  | zero =>
    intro c c1 c2 b bs h1 h2
    simp only [doCycles, Option.some.injEq, Prod.mk.injEq] at h1
    obtain ⟨rfl, rfl⟩ := h1
    exact doCycles_succ 0 c c2 c2 b [] h2 rfl
  | succ n ih =>
    intro c c1 c2 b bs h1 h2
    cases hd : DoCycle c with
    | none => simp [doCycles, hd] at h1
    | some r =>
      obtain ⟨d, b0⟩ := r
      cases hr : doCycles n d with
      | none => simp [doCycles, hd, hr] at h1
      | some q =>
        obtain ⟨d1, bs1⟩ := q
        simp only [doCycles, hd, hr, Option.some.injEq, Prod.mk.injEq] at h1
        obtain ⟨rfl, rfl⟩ := h1
        exact doCycles_succ (n + 1) c d c2 b0 (bs1 ++ [b]) hd (ih d d1 c2 b bs1 hr h2)

theorem and15 (x : Nat) : x &&& 15 = x % 16 :=
  Nat.and_pow_two_sub_one_eq_mod x 4

theorem scenario_trace (rom ram : List Nat)
    (h0 : rom[0]? = some 0x10) (h1 : rom[1]? = some 0xFF) (h2 : rom[2]? = some 0x11)
    (h3 : rom[3]? = some 0xF0) (h4 : rom[4]? = some 0xC5) :
    doCycles 5 ⟨rom, ram, [0, 0, 0, 0, 0, 0, 0, 0, 0, 0, 0, 0, 0, 0, 0, 0], 0, false, 0⟩ =
      some (⟨rom, ram, [0xFF, 0xF0, 0, 0, 0, 0x01, 0, 0, 0, 0, 0, 0, 0, 0, 0, 0], 5, false, 5⟩,
        [true, true, true, true, true]) := by
  have s1 : DoCycle ⟨rom, ram, [0, 0, 0, 0, 0, 0, 0, 0, 0, 0, 0, 0, 0, 0, 0, 0], 0, false, 0⟩ =
      some (⟨rom, ram, [0, 0, 0, 0, 0, 0, 0, 0, 0, 0, 0, 0, 0, 0, 0, 0], 1, true, 0⟩, true) := by
    simp [DoCycle, h0, wrap16, store, and15]
  have s2 : DoCycle ⟨rom, ram, [0, 0, 0, 0, 0, 0, 0, 0, 0, 0, 0, 0, 0, 0, 0, 0], 1, true, 0⟩ =
      some (⟨rom, ram,
          [0xFF, 0, 0, 0, 0, 0, 0, 0, 0, 0, 0, 0, 0, 0, 0, 0], 2, false, 0⟩, true) := by
    simp [DoCycle, h1, wrap16, store, and15]
  have s3 : DoCycle ⟨rom, ram, [0xFF, 0, 0, 0, 0, 0, 0, 0, 0, 0, 0, 0, 0, 0, 0, 0], 2, false, 0⟩ =
      some (⟨rom, ram, [0xFF, 0, 0, 0, 0, 0, 0, 0, 0, 0, 0, 0, 0, 0, 0, 0], 3, true, 1⟩, true) := by
    simp [DoCycle, h2, wrap16, store, and15]
  have s4 : DoCycle ⟨rom, ram, [0xFF, 0, 0, 0, 0, 0, 0, 0, 0, 0, 0, 0, 0, 0, 0, 0], 3, true, 1⟩ =
      some (⟨rom, ram,
          [0xFF, 0xF0, 0, 0, 0, 0, 0, 0, 0, 0, 0, 0, 0, 0, 0, 0], 4, false, 0⟩, true) := by
    simp [DoCycle, h3, wrap16, store, and15]
  have s5 : DoCycle ⟨rom, ram,
      [0xFF, 0xF0, 0, 0, 0, 0, 0, 0, 0, 0, 0, 0, 0, 0, 0, 0], 4, false, 0⟩ =
      some (⟨rom, ram,
          [0xFF, 0xF0, 0, 0, 0, 0x01, 0, 0, 0, 0, 0, 0, 0, 0, 0, 0], 5, false, 5⟩, true) := by
    simp [DoCycle, h4, wrap16, store, and15]
  exact doCycles_succ 4 _ _ _ _ _ s1 (doCycles_succ 3 _ _ _ _ _ s2 (doCycles_succ 2 _ _ _ _ _ s3
    (doCycles_succ 1 _ _ _ _ _ s4 (doCycles_succ 0 _ _ _ _ _ s5 rfl))))

theorem scenario_last (rom ram : List Nat) (h5 : rom[5]? = some 0x00) :
    DoCycle ⟨rom, ram,
        [0xFF, 0xF0, 0, 0, 0, 0x01, 0, 0, 0, 0, 0, 0, 0, 0, 0, 0], 5, false, 5⟩ = some (⟨rom, ram, [0xFF, 0xF0, 0, 0, 0, 0x01, 0, 0, 0, 0, 0, 0, 0, 0, 0, 0], 6, false, 0⟩, false) := by
  simp [DoCycle, h5, wrap16, and15]

theorem scenario_rom (k : Nat) (hk : k < 5) :
    ([0x10, 0xFF, 0x11, 0xF0, 0xC5] ++ List.replicate (romSize - 5) 0)[k]? =
      [0x10, 0xFF, 0x11, 0xF0, 0xC5][k]? :=
  List.getElem?_append_left (by simpa using hk)

theorem scenario_new :
    new (ascii "10FF11F0C5") =
      .ok (exampleCore ([0x10, 0xFF, 0x11, 0xF0, 0xC5] ++ List.replicate (romSize - 5) 0)
        (List.replicate 16 0)) :=
  new_exampleCore (ascii "10FF11F0C5") [0x10, 0xFF, 0x11, 0xF0, 0xC5] rfl (by decide)

theorem scenario_five :
    doCycles 5 (exampleCore ([0x10, 0xFF, 0x11, 0xF0, 0xC5] ++ List.replicate (romSize - 5) 0)
        (List.replicate 16 0)) =
      some (⟨[0x10, 0xFF, 0x11, 0xF0, 0xC5] ++ List.replicate (romSize - 5) 0,
          List.replicate 256 0, [0xFF, 0xF0, 0, 0, 0, 0x01, 0, 0, 0, 0, 0, 0, 0, 0, 0, 0], 5, false, 5⟩, [true, true, true, true, true]) :=
  scenario_trace _ _ (scenario_rom 0 (by decide)) (scenario_rom 1 (by decide))
    (scenario_rom 2 (by decide)) (scenario_rom 3 (by decide)) (scenario_rom 4 (by decide))

/-- C12. The core `new` builds from the string `10FF11F0C5` makes five cycles
that all return true, and is then left with `0xFF` in register 0, `0xF0` in
register 1, `0x01` in register 5 and zero in every other register, a working
memory of 256 zero bytes, the pending-load flag clear and the pointer at 5. -/
theorem scenario_registers :
    ∃ c c5, new (ascii "10FF11F0C5") = .ok c ∧
      doCycles 5 c = some (c5, [true, true, true, true, true]) ∧
      c5.reg = [0xFF, 0xF0, 0, 0, 0, 0x01, 0, 0, 0, 0, 0, 0, 0, 0, 0, 0] ∧
      c5.ram = List.replicate 256 0 ∧ c5.loadAsData = false ∧ c5.pointer = 5 :=
  ⟨_, _, scenario_new, scenario_five, rfl, rfl, rfl, rfl⟩

/-- C13. On the core `new` builds from the string `10FF11F0C5`, the five cycles
on the program bytes return true and leave the pointer at 5, where the program
store holds the padding byte `0x00`; the sixth cycle fetches it and returns
false, its high nibble `0x0` being none of the opcodes the `switch` names. -/
theorem scenario_halts :
    ∃ c c5 c6, new (ascii "10FF11F0C5") = .ok c ∧
      doCycles 5 c = some (c5, [true, true, true, true, true]) ∧
      c5.pointer = 5 ∧ Fetches c5 0x00 ∧ DoCycle c5 = some (c6, false) ∧
      doCycles 6 c = some (c6, [true, true, true, true, true, false]) := by
  have h5 : ([0x10, 0xFF, 0x11, 0xF0, 0xC5] ++ List.replicate (romSize - 5) 0)[5]? =
      some 0x00 := by
    rw [List.getElem?_append_right (by simp), List.getElem?_replicate]
    simp [romSize]
  have hlast := scenario_last _ (List.replicate 256 0) h5
  exact ⟨_, _, _, scenario_new, scenario_five, rfl, ⟨by decide, h5⟩, hlast,
    doCycles_snoc 5 _ _ _ _ _ scenario_five hlast⟩

/-! ## Memory access -/

theorem writeRam_step (c : CPU) (R : Nat) (hR : R < 16) (hw : WF c)
    (hf : c.loadAsData = false) (h : Fetches c (0x30 + R)) :
    DoCycle c = some ({ c with
      pointer := wrap16 (c.pointer + 1)
      selReg := R
      ram := c.ram.set (c.reg.getD 2 0) (c.reg.getD R 0) }, true) := by
  have hlo : (0x30 + R) &&& 0x0F = R := nibble_lo 3 R hR
  have hstep := DoCycle_writeRam c (0x30 + R) hw.reg_len hw.ram_len
    (address_lt c hw 2 (by decide)) hf h (nibble_hi 3 R hR)
  rw [hlo] at hstep
  exact hstep

theorem loadRam_step (c : CPU) (R : Nat) (hR : R < 16) (hreg : c.reg.length = 16)
    (hram : c.ram.length = 256) (haddr : c.reg.getD 2 0 < 256)
    (hf : c.loadAsData = false) (h : Fetches c (0x20 + R)) :
    DoCycle c = some ({ c with
      pointer := wrap16 (c.pointer + 1)
      selReg := R
      reg := c.reg.set R (c.ram.getD (c.reg.getD 2 0) 0) }, true) := by
  have hlo : (0x20 + R) &&& 0x0F = R := nibble_lo 2 R hR
  have hstep := DoCycle_loadRam c (0x20 + R) hreg hram haddr hf h (nibble_hi 2 R hR)
  rw [hlo] at hstep
  exact hstep

/-- C14. In a well-formed state with the flag clear, a cycle on the byte `0x3R`
returns true, writes the value of register `R` to the memory cell addressed by
register 2 and changes no other memory cell and no register; when the next
cycle fetches `0x2S`, it returns true and leaves in register `S` the value
register `R` had before the store. A cycle on the byte `0x2R` returns true,
writes to register `R` the memory cell addressed by the value register 2 had
before the cycle, and changes no memory cell and no other register. -/
theorem memory_access (c : CPU) (R : Nat) (hR : R < 16) (hw : WF c)
    (hf : c.loadAsData = false) :
    (Fetches c (0x30 + R) →
      ∃ c1, DoCycle c = some (c1, true) ∧
        c1.ram.getD (c.reg.getD 2 0) 0 = c.reg.getD R 0 ∧
        (∀ a, a ≠ c.reg.getD 2 0 → c1.ram.getD a 0 = c.ram.getD a 0) ∧
        c1.ram.length = 256 ∧ c1.reg = c.reg ∧ c1.rom = c.rom ∧
        c1.pointer = wrap16 (c.pointer + 1) ∧
        ∀ S, S < 16 → Fetches c1 (0x20 + S) →
          ∃ c2, DoCycle c1 = some (c2, true) ∧ c2.reg.getD S 0 = c.reg.getD R 0) ∧
    (Fetches c (0x20 + R) →
      ∃ c1, DoCycle c = some (c1, true) ∧
        c1.reg.getD R 0 = c.ram.getD (c.reg.getD 2 0) 0 ∧
        (∀ i, i ≠ R → c1.reg.getD i 0 = c.reg.getD i 0) ∧
        c1.reg.length = 16 ∧ c1.ram = c.ram) := by
  have haddr := address_lt c hw 2 (by decide)
  have hlenR : R < c.reg.length := by rw [hw.reg_len]; exact hR
  constructor
  · intro h
    have hl1 : (c.ram.set (c.reg.getD 2 0) (c.reg.getD R 0)).length = 256 := by
      rw [List.length_set, hw.ram_len]
    have hcell := getD_set_self c.ram (c.reg.getD 2 0) (c.reg.getD R 0)
      (by rw [hw.ram_len]; exact haddr)
    refine ⟨_, writeRam_step c R hR hw hf h, hcell,
      fun a ha => getD_set_ne c.ram _ a _ ha, hl1, rfl, rfl, rfl, ?_⟩
    intro S hS hfetch
    have hstep2 := loadRam_step { c with
        pointer := wrap16 (c.pointer + 1)
        selReg := R
        ram := c.ram.set (c.reg.getD 2 0) (c.reg.getD R 0) } S hS hw.reg_len hl1 haddr hf hfetch
    refine ⟨_, hstep2, ?_⟩
    show (c.reg.set S ((c.ram.set (c.reg.getD 2 0) (c.reg.getD R 0)).getD
      (c.reg.getD 2 0) 0)).getD S 0 = c.reg.getD R 0
    rw [getD_set_self c.reg S _ (by rw [hw.reg_len]; exact hS), hcell]
  · intro h
    exact ⟨_, loadRam_step c R hR hw.reg_len hw.ram_len haddr hf h,
      getD_set_self c.reg R _ hlenR, fun i hi => getD_set_ne c.reg R i _ hi,
      by show (c.reg.set R _).length = 16; rw [List.length_set, hw.reg_len], rfl⟩

/-- The theorem `memory_access` at the program `35 26` over registers with the
address `0x07` in register 2 and `0x2A` in register 5: the store puts `0x2A` in
the memory cell 7 and the load that follows puts it in register 6. -/
theorem memory_access_witness :
    ∃ c1 c2, DoCycle (exampleCore [0x35, 0x26] memRegs) = some (c1, true) ∧
      c1.ram.getD 7 0 = 0x2A ∧ DoCycle c1 = some (c2, true) ∧ c2.reg.getD 6 0 = 0x2A := by
  obtain ⟨c1, h1, hcell, -, -, -, hrom, hptr, hnext⟩ :=
    (memory_access (exampleCore [0x35, 0x26] memRegs) 5 (by decide)
      (WF_exampleCore _ _ (by decide) (by decide) (by decide)) rfl).1 (fetch_head _ _ _)
  obtain ⟨c2, h2, hval⟩ := hnext 6 (by decide)
    (fetch_next (exampleCore [0x35, 0x26] memRegs) c1 0x26 (by decide) (by decide)
      hrom hptr (by decide))
  exact ⟨c1, c2, h1, hcell, h2, hval⟩

/-! ## Unary operations -/

theorem xor_ff (v : Nat) (h : v < 256) : v ^^^ 0xFF = 255 - v := by
  interval_cases v <;> rfl

theorem shl_one (v : Nat) : (v <<< 1) % 256 = (2 * v) % 256 := by
  rw [Nat.shiftLeft_eq, Nat.pow_one, Nat.mul_comm]

theorem set_getD_self (xs : List Nat) (i v : Nat) (h : i < xs.length) :
    (xs.set i v).set i (xs.getD i 0) = xs := by
  apply list_ext_getD
  · rw [List.length_set, List.length_set]
  · intro j _
    rw [List.set_set, getD_set]
    by_cases hj : i = j
    · subst hj
      rw [if_pos ⟨rfl, h⟩]
    · rw [if_neg (fun hh => hj hh.1)]

theorem bitshift_step (c : CPU) (R : Nat) (hR : R < 16) (hreg : c.reg.length = 16)
    (hf : c.loadAsData = false) (h : Fetches c (0x50 + R)) :
    DoCycle c = some ({ c with
      pointer := wrap16 (c.pointer + 1)
      selReg := R
      reg := c.reg.set R ((2 * c.reg.getD R 0) % 256) }, true) := by
  have hlo : (0x50 + R) &&& 0x0F = R := nibble_lo 5 R hR
  have hstep := DoCycle_bitshift c (0x50 + R) hreg hf h (nibble_hi 5 R hR)
  rw [hlo, shl_one] at hstep
  exact hstep

theorem invert_step (c : CPU) (R : Nat) (hR : R < 16) (hreg : c.reg.length = 16)
    (hv : c.reg.getD R 0 < 256) (hf : c.loadAsData = false) (h : Fetches c (0x60 + R)) :
    DoCycle c = some ({ c with
      pointer := wrap16 (c.pointer + 1)
      selReg := R
      reg := c.reg.set R (255 - c.reg.getD R 0) }, true) := by
  have hlo : (0x60 + R) &&& 0x0F = R := nibble_lo 6 R hR
  have hstep := DoCycle_invert c (0x60 + R) hreg hf h (nibble_hi 6 R hR)
  rw [hlo, xor_ff _ hv] at hstep
  exact hstep

/-- C15. In a well-formed state with the flag clear and `v` the value of
register `R`, a cycle on the byte `0x5R` returns true and sets register `R` to
`(2 * v) mod 256`, and a cycle on the byte `0x6R` returns true and sets it to
`255 - v`; either changes no other register and no memory cell. When the cycle
after the one on `0x6R` fetches `0x6R` again, it returns true and leaves the
register file as it was before the two cycles. -/
theorem unary_ops (c : CPU) (R : Nat) (hR : R < 16) (hw : WF c)
    (hf : c.loadAsData = false) :
    (Fetches c (0x50 + R) →
      ∃ c1, DoCycle c = some (c1, true) ∧
        c1.reg.getD R 0 = (2 * c.reg.getD R 0) % 256 ∧
        (∀ i, i ≠ R → c1.reg.getD i 0 = c.reg.getD i 0) ∧
        c1.reg.length = 16 ∧ c1.ram = c.ram) ∧
    (Fetches c (0x60 + R) →
      ∃ c1, DoCycle c = some (c1, true) ∧
        c1.reg.getD R 0 = 255 - c.reg.getD R 0 ∧
        (∀ i, i ≠ R → c1.reg.getD i 0 = c.reg.getD i 0) ∧
        c1.reg.length = 16 ∧ c1.ram = c.ram ∧ c1.rom = c.rom ∧
        c1.pointer = wrap16 (c.pointer + 1) ∧
        (Fetches c1 (0x60 + R) →
          ∃ c2, DoCycle c1 = some (c2, true) ∧ c2.reg = c.reg ∧ c2.ram = c.ram)) := by
  have hlenR : R < c.reg.length := by rw [hw.reg_len]; exact hR
  have hv := address_lt c hw R hR
  constructor
  · intro h
    exact ⟨_, bitshift_step c R hR hw.reg_len hf h, getD_set_self c.reg R _ hlenR,
      fun i hi => getD_set_ne c.reg R i _ hi,
      by show (c.reg.set R _).length = 16; rw [List.length_set, hw.reg_len], rfl⟩
  · intro h
    have hl1 : (c.reg.set R (255 - c.reg.getD R 0)).length = 16 := by
      rw [List.length_set, hw.reg_len]
    have hv1 : (c.reg.set R (255 - c.reg.getD R 0)).getD R 0 = 255 - c.reg.getD R 0 :=
      getD_set_self c.reg R _ hlenR
    refine ⟨_, invert_step c R hR hw.reg_len hv hf h, hv1,
      fun i hi => getD_set_ne c.reg R i _ hi, hl1, rfl, rfl, rfl, ?_⟩
    intro hfetch
    have hstep2 := invert_step { c with
        pointer := wrap16 (c.pointer + 1)
        selReg := R
        reg := c.reg.set R (255 - c.reg.getD R 0) } R hR hl1
      (by show (c.reg.set R (255 - c.reg.getD R 0)).getD R 0 < 256; rw [hv1]; omega)
      hf hfetch
    refine ⟨_, hstep2, ?_, rfl⟩
    show (c.reg.set R (255 - c.reg.getD R 0)).set R
      (255 - (c.reg.set R (255 - c.reg.getD R 0)).getD R 0) = c.reg
    rw [hv1]
    have e : 255 - (255 - c.reg.getD R 0) = c.reg.getD R 0 := by omega
    rw [e]
    exact set_getD_self c.reg R _ hlenR

/-- The theorem `unary_ops` over registers with `0xC3` in register 5: the
program `55` leaves `0x86` there, the top bit being lost, and the program
`65 65` leaves `0x3C` after one cycle and the original register file after
two. -/
theorem unary_ops_witness :
    (∃ c1, DoCycle (exampleCore [0x55] unaryRegs) = some (c1, true) ∧
      c1.reg.getD 5 0 = 0x86) ∧
    (∃ c1 c2, DoCycle (exampleCore [0x65, 0x65] unaryRegs) = some (c1, true) ∧
      c1.reg.getD 5 0 = 0x3C ∧ DoCycle c1 = some (c2, true) ∧ c2.reg = unaryRegs) := by
  constructor
  · obtain ⟨c1, h1, hv, -⟩ :=
      (unary_ops (exampleCore [0x55] unaryRegs) 5 (by decide)
        (WF_exampleCore _ _ (by decide) (by decide) (by decide)) rfl).1 (fetch_head _ _ _)
    exact ⟨c1, h1, hv⟩
  · obtain ⟨c1, h1, hv, -, -, -, hrom, hptr, hnext⟩ :=
      (unary_ops (exampleCore [0x65, 0x65] unaryRegs) 5 (by decide)
        (WF_exampleCore _ _ (by decide) (by decide) (by decide)) rfl).2 (fetch_head _ _ _)
    obtain ⟨c2, h2, hreg, -⟩ := hnext
      (fetch_next (exampleCore [0x65, 0x65] unaryRegs) c1 0x65 (by decide) (by decide)
        hrom hptr (by decide))
    exact ⟨c1, c2, h1, hv, h2, hreg⟩

/-! ## Invariants of the cycle -/

theorem wrap16_range (x : Int) : -32768 ≤ wrap16 x ∧ wrap16 x ≤ 32767 := by
  unfold wrap16
  omega

theorem wrap8_lt (x : Int) : wrap8 x < 256 := by
  unfold wrap8
  omega

theorem set_byte (xs : List Nat) (i v : Nat) (h : ∀ x ∈ xs, x < 256) (hv : v < 256) :
    ∀ x ∈ xs.set i v, x < 256 := by
  intro x hx
  rcases List.mem_or_eq_of_mem_set hx with hm | he
  · exact h x hm
  · rw [he]; exact hv

theorem WF_mk (c : CPU) (hw : WF c) (reg ram : List Nat) (p : Int) (f : Bool) (sel : Nat)
    (hreg : reg.length = 16) (hram : ram.length = 256) (hrb : ∀ v ∈ reg, v < 256)
    (hmb : ∀ v ∈ ram, v < 256) (hsel : sel < 16) :
    WF ⟨c.rom, ram, reg, wrap16 p, f, sel⟩ where
  reg_len := hreg
  ram_len := hram
  reg_byte := hrb
  ram_byte := hmb
  rom_byte := hw.rom_byte
  selReg_lt := hsel
  pointer_ge := (wrap16_range p).1
  pointer_le := (wrap16_range p).2

theorem DoCycle_fetches (c : CPU) (r : CPU × Bool) (h : DoCycle c = some r) :
    ∃ b, Fetches c b := by
  by_cases hneg : c.pointer < 0
  · unfold DoCycle at h
    rw [if_pos hneg] at h
    cases h
  · cases hb : c.rom[c.pointer.toNat]? with
    | none =>
      unfold DoCycle at h
      rw [if_neg hneg] at h
      simp only [hb] at h
      cases h
    | some b => exact ⟨b, not_lt.1 hneg, hb⟩

theorem DoCycle_preserves (c c1 : CPU) (r : Bool) (hw : WF c)
    (h : DoCycle c = some (c1, r)) : WF c1 ∧ c1.rom = c.rom := by
  obtain ⟨b, hfetch⟩ := DoCycle_fetches c _ h
  have hbyte := fetched_lt c b hw hfetch
  have hR := low_nibble_lt b
  have h2 := address_lt c hw 2 (by decide)
  have h3 := address_lt c hw 3 (by decide)
  have ha := address_lt c hw 0 (by decide)
  have hb1 := address_lt c hw 1 (by decide)
  have hsel := address_lt c hw (b &&& 0x0F) hR
  rcases Bool.eq_false_or_eq_true c.loadAsData with hf | hf
  · have hstep := DoCycle_data c b (by rw [hw.reg_len]; exact hw.selReg_lt) hf hfetch
    rw [hstep] at h
    cases h
    exact ⟨WF_mk c hw _ _ _ _ _ (by rw [List.length_set]; exact hw.reg_len) hw.ram_len
      (set_byte _ _ _ hw.reg_byte hbyte) hw.ram_byte (by decide), rfl⟩
  have hle := high_nibble_le b hbyte
  have hplain : WF ⟨c.rom, c.ram, c.reg, wrap16 (c.pointer + 1), c.loadAsData, b &&& 0x0F⟩ :=
    WF_mk c hw _ _ _ _ _ hw.reg_len hw.ram_len hw.reg_byte hw.ram_byte hR
  interval_cases hop : b >>> 4
  · have hstep := DoCycle_halt c b hf hfetch (Or.inl hop)
    rw [hstep] at h
    cases h
    exact ⟨hplain, rfl⟩
  · have hstep := DoCycle_loadReg c b hf hfetch hop
    rw [hstep] at h
    cases h
    exact ⟨WF_mk c hw _ _ _ _ _ hw.reg_len hw.ram_len hw.reg_byte hw.ram_byte hR, rfl⟩
  · have hstep := DoCycle_loadRam c b hw.reg_len hw.ram_len h2 hf hfetch hop
    rw [hstep] at h
    cases h
    exact ⟨WF_mk c hw _ _ _ _ _ (by rw [List.length_set]; exact hw.reg_len) hw.ram_len
        (set_byte _ _ _ hw.reg_byte (hw.ram_byte _ (getD_mem c.ram _ (by rw [hw.ram_len]; exact h2))))
        hw.ram_byte hR, rfl⟩
  · have hstep := DoCycle_writeRam c b hw.reg_len hw.ram_len h2 hf hfetch hop
    rw [hstep] at h
    cases h
    exact ⟨WF_mk c hw _ _ _ _ _ hw.reg_len (by rw [List.length_set]; exact hw.ram_len) hw.reg_byte
        (set_byte _ _ _ hw.ram_byte hsel) hR, rfl⟩
  · have hstep := DoCycle_move c b hw.reg_len hf hfetch hop
    rw [hstep] at h
    cases h
    exact ⟨WF_mk c hw _ _ _ _ _ (by rw [List.length_set, List.length_set]; exact hw.reg_len) hw.ram_len
        (set_byte _ _ _ (set_byte _ _ _ hw.reg_byte hsel) h3) hw.ram_byte hR, rfl⟩
  · have hstep := DoCycle_bitshift c b hw.reg_len hf hfetch hop
    rw [hstep] at h
    cases h
    exact ⟨WF_mk c hw _ _ _ _ _ (by rw [List.length_set]; exact hw.reg_len) hw.ram_len
        (set_byte _ _ _ hw.reg_byte (Nat.mod_lt _ (by decide))) hw.ram_byte hR, rfl⟩
  · have hstep := DoCycle_invert c b hw.reg_len hf hfetch hop
    rw [hstep] at h
    cases h
    exact ⟨WF_mk c hw _ _ _ _ _ (by rw [List.length_set]; exact hw.reg_len) hw.ram_len
        (set_byte _ _ _ hw.reg_byte (by rw [xor_ff _ hsel]; omega)) hw.ram_byte hR, rfl⟩
  · have hstep := DoCycle_or c b hw.reg_len hf hfetch hop
    rw [hstep] at h
    cases h
    exact ⟨WF_mk c hw _ _ _ _ _ (by rw [List.length_set]; exact hw.reg_len) hw.ram_len
        (set_byte _ _ _ hw.reg_byte (Nat.or_lt_two_pow (n := 8) ha hb1)) hw.ram_byte hR, rfl⟩
  · have hstep := DoCycle_and c b hw.reg_len hf hfetch hop
    rw [hstep] at h
    cases h
    exact ⟨WF_mk c hw _ _ _ _ _ (by rw [List.length_set]; exact hw.reg_len) hw.ram_len
        (set_byte _ _ _ hw.reg_byte (Nat.and_lt_two_pow (n := 8) _ hb1)) hw.ram_byte hR, rfl⟩
  · have hstep := DoCycle_xor c b hw.reg_len hf hfetch hop
    rw [hstep] at h
    cases h
    exact ⟨WF_mk c hw _ _ _ _ _ (by rw [List.length_set]; exact hw.reg_len) hw.ram_len
        (set_byte _ _ _ hw.reg_byte (Nat.xor_lt_two_pow (n := 8) ha hb1)) hw.ram_byte hR, rfl⟩
  · have hstep := DoCycle_add c b hw.reg_len hf hfetch hop
    rw [hstep] at h
    cases h
    exact ⟨WF_mk c hw _ _ _ _ _ (by rw [List.length_set]; exact hw.reg_len) hw.ram_len
        (set_byte _ _ _ hw.reg_byte (Nat.mod_lt _ (by decide))) hw.ram_byte hR, rfl⟩
  · have hstep := DoCycle_sub c b hw.reg_len hf hfetch hop
    rw [hstep] at h
    cases h
    exact ⟨WF_mk c hw _ _ _ _ _ (by rw [List.length_set]; exact hw.reg_len) hw.ram_len
        (set_byte _ _ _ hw.reg_byte (wrap8_lt _)) hw.ram_byte hR, rfl⟩
  · have hstep := DoCycle_compare c b hw.reg_len hf hfetch hop
    rw [hstep] at h
    cases h
    refine ⟨WF_mk c hw _ _ _ _ _ ?_ hw.ram_len ?_ hw.ram_byte hR, rfl⟩
    · split_ifs
      · rw [List.length_set]; exact hw.reg_len
      · exact hw.reg_len
    · split_ifs
      · exact set_byte _ _ _ hw.reg_byte (by decide)
      · exact hw.reg_byte
  · have hstep := DoCycle_skip c b hw.reg_len hf hfetch hop
    rw [hstep] at h
    cases h
    refine ⟨?_, rfl⟩
    split_ifs
    · exact WF_mk c hw _ _ _ _ _ hw.reg_len hw.ram_len hw.reg_byte hw.ram_byte hR
    · exact hplain
  · have hstep := DoCycle_jump c b hw.reg_len hf hfetch hop
    rw [hstep] at h
    cases h
    exact ⟨WF_mk c hw _ _ _ _ _ hw.reg_len hw.ram_len hw.reg_byte hw.ram_byte hR, rfl⟩
  · have hstep := DoCycle_halt c b hf hfetch (Or.inr hop)
    rw [hstep] at h
    cases h
    exact ⟨hplain, rfl⟩

theorem DoCycle_some (c : CPU) (b : Nat) (hw : WF c) (h : Fetches c b) :
    ∃ c1 r, DoCycle c = some (c1, r) := by
  rcases Bool.eq_false_or_eq_true c.loadAsData with hf | hf
  · exact ⟨_, _, DoCycle_data c b (by rw [hw.reg_len]; exact hw.selReg_lt) hf h⟩
  · by_cases hmid : 1 ≤ b >>> 4 ∧ b >>> 4 ≤ 14
    · obtain ⟨c1, hc1⟩ := DoCycle_true_of_opcode c b hw hf h hmid.1 hmid.2
      exact ⟨c1, true, hc1⟩
    · have hle := high_nibble_le b (fetched_lt c b hw h)
      exact ⟨_, _, DoCycle_halt c b hf h (by omega)⟩

theorem doCycles_preserves (n : Nat) : ∀ (c c1 : CPU) (bs : List Bool), WF c →
    doCycles n c = some (c1, bs) → WF c1 ∧ c1.rom = c.rom := by
  induction n with
  | zero =>
    intro c c1 bs hw h
    simp only [doCycles, Option.some.injEq, Prod.mk.injEq] at h
    obtain ⟨rfl, -⟩ := h
    exact ⟨hw, rfl⟩
  | succ n ih =>
    intro c c1 bs hw h
    cases hd : DoCycle c with
    | none => simp [doCycles, hd] at h
    | some q =>
      obtain ⟨d, b0⟩ := q
      obtain ⟨hwd, hromd⟩ := DoCycle_preserves c d b0 hw hd
      cases hr : doCycles n d with
      | none => simp [doCycles, hd, hr] at h
      | some q1 =>
        obtain ⟨d1, bs1⟩ := q1
        simp only [doCycles, hd, hr, Option.some.injEq, Prod.mk.injEq] at h
        obtain ⟨rfl, -⟩ := h
        obtain ⟨hw1, hrom1⟩ := ih d d1 bs1 hwd hr
        exact ⟨hw1, hrom1.trans hromd⟩

theorem decodeString_byte (s : List Nat) :
    ∀ data, decodeString s = .ok data → ∀ v ∈ data, v < 256 := by
  induction s using pairInduction with
  | nil =>
    intro data h v hv
    simp only [decodeString, Except.ok.injEq] at h
    subst h
    cases hv
  | single p =>
    intro data h
    simp only [decodeString] at h
    split_ifs at h
  | pair p q rest ih =>
    intro data h v hv
    simp only [decodeString] at h
    split_ifs at h with h1 h2
    cases hd : decodeString rest with
    | error e => simp [hd] at h
    | ok bytes =>
      simp only [hd, Except.ok.injEq] at h
      subst h
      rcases List.mem_cons.1 hv with hv | hv
      · rw [hv, shl4_or _ _ (by omega) (by omega)]
        omega
      · exact ih bytes hd v hv

theorem new_ok (s : List Nat) (c : CPU) (h : new s = .ok c) :
    WF c ∧ c.rom.length = 65536 := by
  cases hd : decodeString s with
  | error e =>
    rw [new_of_decode_error s e hd] at h
    cases h
  | ok data =>
    by_cases hle : data.length ≤ romSize
    · rw [new_exampleCore s data hd hle] at h
      cases h
      refine ⟨WF_exampleCore _ _ (List.length_replicate 16 0)
        (fun v hv => by rw [List.eq_of_mem_replicate hv]; decide)
        (rom_byte_padded _ _ (decodeString_byte s data hd)), ?_⟩
      show (data ++ List.replicate (romSize - data.length) 0).length = 65536
      rw [List.length_append, List.length_replicate]
      have : romSize = 65536 := rfl
      omega
    · obtain ⟨msg, hmsg⟩ := new_of_decode_big s data hd (Nat.lt_of_not_le hle)
      rw [hmsg] at h
      cases h

/-! ## Reachable states -/

theorem reachable_WF (s : List Nat) (c c1 : CPU) (n : Nat) (bs : List Bool)
    (hnew : new s = .ok c) (hrun : doCycles n c = some (c1, bs)) :
    WF c1 ∧ c1.rom.length = 65536 := by
  obtain ⟨hw, hlen⟩ := new_ok s c hnew
  obtain ⟨hw1, hrom⟩ := doCycles_preserves n c c1 bs hw hrun
  exact ⟨hw1, by rw [hrom]; exact hlen⟩

theorem DoCycle_negative (c : CPU) (h : c.pointer < 0) : DoCycle c = none := by
  unfold DoCycle
  rw [if_pos h]

theorem fetches_of_index (c : CPU) (h0 : 0 ≤ c.pointer) (h1 : c.pointer.toNat < c.rom.length) :
    ∃ b, Fetches c b :=
  ⟨_, h0, List.getElem?_eq_getElem h1⟩

theorem overflow_trace (rom ram : List Nat)
    (h0 : rom[0]? = some 0x14) (h1 : rom[1]? = some 0x80) (h2 : rom[2]? = some 0xE0) :
    doCycles 3 ⟨rom, ram, [0, 0, 0, 0, 0, 0, 0, 0, 0, 0, 0, 0, 0, 0, 0, 0], 0, false, 0⟩ =
      some (⟨rom, ram,
          [0, 0, 0, 0, 0x80, 0, 0, 0, 0, 0, 0, 0, 0, 0, 0, 0], -32768, false, 0⟩, [true, true, true]) := by
  have s1 : DoCycle ⟨rom, ram, [0, 0, 0, 0, 0, 0, 0, 0, 0, 0, 0, 0, 0, 0, 0, 0], 0, false, 0⟩ =
      some (⟨rom, ram, [0, 0, 0, 0, 0, 0, 0, 0, 0, 0, 0, 0, 0, 0, 0, 0], 1, true, 4⟩, true) := by
    simp [DoCycle, h0, wrap16, and15]
  have s2 : DoCycle ⟨rom, ram, [0, 0, 0, 0, 0, 0, 0, 0, 0, 0, 0, 0, 0, 0, 0, 0], 1, true, 4⟩ =
      some (⟨rom, ram,
          [0, 0, 0, 0, 0x80, 0, 0, 0, 0, 0, 0, 0, 0, 0, 0, 0], 2, false, 0⟩, true) := by
    simp [DoCycle, h1, wrap16, store]
  have s3 : DoCycle ⟨rom, ram, [0, 0, 0, 0, 0x80, 0, 0, 0, 0, 0, 0, 0, 0, 0, 0, 0], 2, false, 0⟩ =
      some (⟨rom, ram,
          [0, 0, 0, 0, 0x80, 0, 0, 0, 0, 0, 0, 0, 0, 0, 0, 0], -32768, false, 0⟩, true) := by
    simp [DoCycle, h2, wrap16, store, and15]
  exact doCycles_succ 2 _ _ _ _ _ s1 (doCycles_succ 1 _ _ _ _ _ s2
    (doCycles_succ 0 _ _ _ _ _ s3 rfl))

/-- C16, as amended. After any number of `DoCycle` calls, none of which
faulted, on a core returned by `new`, the pointer is an `int16`, between -32768
and 32767, and the program store still has 65,536 bytes; the next cycle fetches
within bounds, and does not fault, exactly when the pointer is not negative. -/
theorem pointer_range (s : List Nat) (c c1 : CPU) (n : Nat) (bs : List Bool)
    (hnew : new s = .ok c) (hrun : doCycles n c = some (c1, bs)) :
    -32768 ≤ c1.pointer ∧ c1.pointer ≤ 32767 ∧ c1.rom.length = 65536 ∧
      (c1.pointer < 65536) ∧
      ((∃ b, Fetches c1 b) ↔ 0 ≤ c1.pointer) ∧
      ((∃ r, DoCycle c1 = some r) ↔ 0 ≤ c1.pointer) := by
  obtain ⟨hw, hlen⟩ := reachable_WF s c c1 n bs hnew hrun
  have hge := hw.pointer_ge
  have hle := hw.pointer_le
  have hfetch : 0 ≤ c1.pointer → ∃ b, Fetches c1 b := fun h0 =>
    fetches_of_index c1 h0 (by rw [hlen]; omega)
  refine ⟨hge, hle, hlen, by omega, ⟨fun ⟨b, hb⟩ => hb.1, hfetch⟩, ⟨?_, ?_⟩⟩
  · rintro ⟨r, hr⟩
    by_contra hneg
    rw [DoCycle_negative c1 (not_le.1 hneg)] at hr
    cases hr
  · intro h0
    obtain ⟨b, hb⟩ := hfetch h0
    obtain ⟨c2, r, h2⟩ := DoCycle_some c1 b hw hb
    exact ⟨_, h2⟩

/-- The theorem `pointer_range` at the core built from `10FF11F0C5`, after its
five cycles. -/
theorem pointer_range_witness :
    ∃ c c5, new (ascii "10FF11F0C5") = .ok c ∧
      doCycles 5 c = some (c5, [true, true, true, true, true]) ∧
      -32768 ≤ c5.pointer ∧ c5.pointer ≤ 32767 ∧ c5.rom.length = 65536 ∧
      (c5.pointer < 65536) ∧
      ((∃ b, Fetches c5 b) ↔ 0 ≤ c5.pointer) ∧
      ((∃ r, DoCycle c5 = some r) ↔ 0 ≤ c5.pointer) :=
  ⟨_, _, scenario_new, scenario_five,
    pointer_range (ascii "10FF11F0C5") _ _ 5 _ scenario_new scenario_five⟩

/-- C16, the claim as stated fails. The core `new` builds from the string
`1480E0` makes three cycles that all return true: they load `0x80` in register
4 and jump. The pointer is then -32768, which is not an index of the program
store, and the next cycle faults on the fetch. -/
theorem pointer_range_counterexample :
    ∃ c c3, new (ascii "1480E0") = .ok c ∧
      doCycles 3 c = some (c3, [true, true, true]) ∧
      c3.pointer = -32768 ∧ ¬ (0 ≤ c3.pointer ∧ c3.pointer < 65536) ∧
      DoCycle c3 = none := by
  have hnew : new (ascii "1480E0") =
      .ok (exampleCore ([0x14, 0x80, 0xE0] ++ List.replicate (romSize - 3) 0)
        (List.replicate 16 0)) :=
    new_exampleCore (ascii "1480E0") [0x14, 0x80, 0xE0] rfl (by decide)
  have hrom : ∀ k, k < 3 →
      ([0x14, 0x80, 0xE0] ++ List.replicate (romSize - 3) 0)[k]? = [0x14, 0x80, 0xE0][k]? :=
    fun k hk => List.getElem?_append_left (by simpa using hk)
  have hrun := overflow_trace ([0x14, 0x80, 0xE0] ++ List.replicate (romSize - 3) 0)
    (List.replicate 256 0) (hrom 0 (by decide)) (hrom 1 (by decide)) (hrom 2 (by decide))
  refine ⟨_, _, hnew, hrun, rfl, ?_, DoCycle_negative _ ?_⟩
  · show ¬ (0 ≤ (-32768 : Int) ∧ (-32768 : Int) < 65536)
    omega
  · show (-32768 : Int) < 0
    omega

/-- C17. After any number of `DoCycle` calls, none of which faulted, on a core
returned by `new`, the register file has 16 slots, the working memory has 256
slots and the remembered register index is at most 15; and when the pointer is
an index of the program store, the next `DoCycle` call does not fault: it
returns a core and a boolean. -/
theorem no_bounds_failure (s : List Nat) (c c1 : CPU) (n : Nat) (bs : List Bool)
    (hnew : new s = .ok c) (hrun : doCycles n c = some (c1, bs)) :
    c1.reg.length = 16 ∧ c1.ram.length = 256 ∧ c1.selReg ≤ 15 ∧
      (0 ≤ c1.pointer → c1.pointer.toNat < c1.rom.length →
        ∃ c2 r, DoCycle c1 = some (c2, r)) := by
  obtain ⟨hw, -⟩ := reachable_WF s c c1 n bs hnew hrun
  refine ⟨hw.reg_len, hw.ram_len, Nat.lt_succ_iff.1 hw.selReg_lt, fun h0 h1 => ?_⟩
  obtain ⟨b, hb⟩ := fetches_of_index c1 h0 h1
  exact DoCycle_some c1 b hw hb

/-- The theorem `no_bounds_failure` at the core built from `10FF11F0C5`, after
its five cycles. -/
theorem no_bounds_failure_witness :
    ∃ c c5, new (ascii "10FF11F0C5") = .ok c ∧
      doCycles 5 c = some (c5, [true, true, true, true, true]) ∧
      c5.reg.length = 16 ∧ c5.ram.length = 256 ∧ c5.selReg ≤ 15 ∧
      (0 ≤ c5.pointer → c5.pointer.toNat < c5.rom.length →
        ∃ c6 r, DoCycle c5 = some (c6, r)) :=
  ⟨_, _, scenario_new, scenario_five,
    no_bounds_failure (ascii "10FF11F0C5") _ _ 5 _ scenario_new scenario_five⟩

/-! ## The program store -/

/-- C18. Whatever the state and the byte fetched, when a `DoCycle` call returns,
on the pending-load branch, on any opcode or on the halt, the program store of
the core after the cycle is the program store before it. -/
theorem rom_immutable (c c1 : CPU) (r : Bool) (h : DoCycle c = some (c1, r)) :
    c1.rom = c.rom := by
  by_cases hneg : c.pointer < 0
  · rw [DoCycle_negative c hneg] at h
    cases h
  cases hb : c.rom[c.pointer.toNat]? with
  | none =>
    unfold DoCycle at h
    rw [if_neg hneg] at h
    simp only [hb] at h
    cases h
  | some b =>
    unfold DoCycle at h
    rw [if_neg hneg] at h
    simp only [hb] at h
    cases hf : c.loadAsData with
    | true =>
      simp only [hf, if_true] at h
      cases hs : store c.reg c.selReg b with
      | none => simp only [hs] at h; cases h
      | some reg => simp only [hs] at h; cases h; rfl
    | false =>
      simp only [hf, Bool.false_eq_true, if_false] at h
      generalize b >>> 4 = op at h
      by_cases h0 : op = loadRegInstruction
      · rw [if_pos h0] at h
        cases h
        rfl
      rw [if_neg h0] at h
      by_cases h1 : op = loadRamInstruction
      · rw [if_pos h1] at h
        simp only [Option.bind_eq_bind, Option.bind_eq_some, Option.some.injEq, Prod.mk.injEq] at h
        obtain ⟨_, _, _, _, _, _, rfl, -⟩ := h
        rfl
      rw [if_neg h1] at h
      by_cases h2 : op = writeRamInstruction
      · rw [if_pos h2] at h
        simp only [Option.bind_eq_bind, Option.bind_eq_some, Option.some.injEq, Prod.mk.injEq] at h
        obtain ⟨_, _, _, _, _, _, rfl, -⟩ := h
        rfl
      rw [if_neg h2] at h
      by_cases h3 : op = moveInstruction
      · rw [if_pos h3] at h
        simp only [Option.bind_eq_bind, Option.bind_eq_some, Option.some.injEq, Prod.mk.injEq] at h
        obtain ⟨_, _, _, _, _, _, _, _, rfl, -⟩ := h
        rfl
      rw [if_neg h3] at h
      by_cases h4 : op = bitshiftInstruction
      · rw [if_pos h4] at h
        simp only [Option.bind_eq_bind, Option.bind_eq_some, Option.some.injEq, Prod.mk.injEq] at h
        obtain ⟨_, _, _, _, rfl, -⟩ := h
        rfl
      rw [if_neg h4] at h
      by_cases h5 : op = invertInstruction
      · rw [if_pos h5] at h
        simp only [Option.bind_eq_bind, Option.bind_eq_some, Option.some.injEq, Prod.mk.injEq] at h
        obtain ⟨_, _, _, _, rfl, -⟩ := h
        rfl
      rw [if_neg h5] at h
      by_cases h6 : op = orInstruction
      · rw [if_pos h6] at h
        simp only [Option.bind_eq_bind, Option.bind_eq_some, Option.some.injEq, Prod.mk.injEq] at h
        obtain ⟨_, _, _, _, _, _, rfl, -⟩ := h
        rfl
      rw [if_neg h6] at h
      by_cases h7 : op = andInstruction
      · rw [if_pos h7] at h
        simp only [Option.bind_eq_bind, Option.bind_eq_some, Option.some.injEq, Prod.mk.injEq] at h
        obtain ⟨_, _, _, _, _, _, rfl, -⟩ := h
        rfl
      rw [if_neg h7] at h
      by_cases h8 : op = xorInstruction
      · rw [if_pos h8] at h
        simp only [Option.bind_eq_bind, Option.bind_eq_some, Option.some.injEq, Prod.mk.injEq] at h
        obtain ⟨_, _, _, _, _, _, rfl, -⟩ := h
        rfl
      rw [if_neg h8] at h
      by_cases h9 : op = addInstruction
      · rw [if_pos h9] at h
        simp only [Option.bind_eq_bind, Option.bind_eq_some, Option.some.injEq, Prod.mk.injEq] at h
        obtain ⟨_, _, _, _, _, _, rfl, -⟩ := h
        rfl
      rw [if_neg h9] at h
      by_cases h10 : op = subInstruction
      · rw [if_pos h10] at h
        simp only [Option.bind_eq_bind, Option.bind_eq_some, Option.some.injEq, Prod.mk.injEq] at h
        obtain ⟨_, _, _, _, _, _, rfl, -⟩ := h
        rfl
      rw [if_neg h10] at h
      by_cases h11 : op = compareInstruction
      · rw [if_pos h11] at h
        simp only [Option.bind_eq_bind, Option.bind_eq_some, Option.some.injEq, Prod.mk.injEq] at h
        obtain ⟨_, _, _, _, h⟩ := h
        split_ifs at h
        · simp only [Option.bind_eq_bind, Option.bind_eq_some, Option.some.injEq, Prod.mk.injEq] at h
          obtain ⟨_, _, rfl, -⟩ := h
          rfl
        · simp only [Option.bind_eq_bind, Option.bind_eq_some, Option.some.injEq, Prod.mk.injEq] at h
          obtain ⟨rfl, -⟩ := h
          rfl
      rw [if_neg h11] at h
      by_cases h12 : op = skipInstruction
      · rw [if_pos h12] at h
        simp only [Option.bind_eq_bind, Option.bind_eq_some, Option.some.injEq, Prod.mk.injEq] at h
        obtain ⟨_, _, h⟩ := h
        split_ifs at h
        · simp only [Option.bind_eq_bind, Option.bind_eq_some, Option.some.injEq, Prod.mk.injEq] at h
          obtain ⟨rfl, -⟩ := h
          rfl
        · simp only [Option.bind_eq_bind, Option.bind_eq_some, Option.some.injEq, Prod.mk.injEq] at h
          obtain ⟨rfl, -⟩ := h
          rfl
      rw [if_neg h12] at h
      by_cases h13 : op = jumpInstruction
      · rw [if_pos h13] at h
        simp only [Option.bind_eq_bind, Option.bind_eq_some, Option.some.injEq, Prod.mk.injEq] at h
        obtain ⟨_, _, _, _, rfl, -⟩ := h
        rfl
      rw [if_neg h13] at h
      cases h
      rfl

/-- The theorem `rom_immutable` at the program `45` over the registers
`10, ..., 25`: the cycle swaps two registers and leaves the program store. -/
theorem rom_immutable_witness :
    ∃ c1, DoCycle (exampleCore [0x45] exampleRegs) = some (c1, true) ∧ c1.rom = [0x45] := by
  have hstep := DoCycle_move (exampleCore [0x45] exampleRegs) 0x45 rfl rfl (fetch_head _ _ _) rfl
  exact ⟨_, hstep, rom_immutable _ _ _ hstep⟩

/-! ## The sample program of `main` -/

theorem mainLoop_step (fuel : Nat) (c c1 : CPU) (r : Bool) (hp : c.pointer < 100)
    (h : DoCycle c = some (c1, r)) : mainLoop (fuel + 1) true c = mainLoop fuel r c1 := by
  simp only [mainLoop, hp, and_self, if_true, h]

theorem mainLoop_stop (fuel : Nat) (c : CPU) : mainLoop fuel false c = .finished c := by
  cases fuel <;> simp [mainLoop]

theorem rev_hexChar (d : Nat) (h : d < 16) : reverseHexTable (hexChar d) = d := by
  unfold hexChar reverseHexTable
  split_ifs <;> omega

theorem decode_pair (p q a b v : Nat) (rest data : List Nat) (ha : reverseHexTable p = a)
    (hb : reverseHexTable q = b) (ha15 : a ≤ 15) (hb15 : b ≤ 15) (hv : 16 * a + b = v)
    (h : decodeString rest = .ok data) :
    decodeString (p :: q :: rest) = .ok (v :: data) := by
  simp only [decodeString, ha, hb, h]
  rw [if_neg (by omega), if_neg (by omega), shl4_or a b (by omega) (by omega), hv]

theorem decode_byte (v : Nat) (hv : v < 256) (rest data : List Nat)
    (h : decodeString rest = .ok data) :
    decodeString (hexChar (v / 16) :: hexChar (v % 16) :: rest) = .ok (v :: data) :=
  decode_pair _ _ (v / 16) (v % 16) v rest data (rev_hexChar _ (by omega))
    (rev_hexChar _ (by omega)) (by omega) (by omega) (by omega) h

theorem sample_decode (A B : Nat) (hA : A < 256) (hB : B < 256) :
    decodeString (sampleProgram A B) = .ok (sampleBytes A B) := by
  have e : sampleProgram A B =
      [49, 48, hexChar (A / 16), hexChar (A % 16), 49, 49, hexChar (B / 16), hexChar (B % 16),
        67, 53, 49, 54, 48, 69, 49, 55, 48, 68, 68, 53, 69, 55, 52, 48, 69, 54, 52, 49,
        51, 51, 48, 48] := rfl
  rw [e]
  exact (decode_pair 49 48 1 0 0x10 _ _ (by decide) (by decide) (by decide) (by decide) (by decide)
    (decode_byte A hA _ _
    (decode_pair 49 49 1 1 0x11 _ _ (by decide) (by decide) (by decide) (by decide) (by decide)
    (decode_byte B hB _ _
    (decode_pair 67 53 12 5 0xC5 _ _ (by decide) (by decide) (by decide) (by decide) (by decide)
    (decode_pair 49 54 1 6 0x16 _ _ (by decide) (by decide) (by decide) (by decide) (by decide)
    (decode_pair 48 69 0 14 0x0E _ _ (by decide) (by decide) (by decide) (by decide) (by decide)
    (decode_pair 49 55 1 7 0x17 _ _ (by decide) (by decide) (by decide) (by decide) (by decide)
    (decode_pair 48 68 0 13 0x0D _ _ (by decide) (by decide) (by decide) (by decide) (by decide)
    (decode_pair 68 53 13 5 0xD5 _ _ (by decide) (by decide) (by decide) (by decide) (by decide)
    (decode_pair 69 55 14 7 0xE7 _ _ (by decide) (by decide) (by decide) (by decide) (by decide)
    (decode_pair 52 48 4 0 0x40 _ _ (by decide) (by decide) (by decide) (by decide) (by decide)
    (decode_pair 69 54 14 6 0xE6 _ _ (by decide) (by decide) (by decide) (by decide) (by decide)
    (decode_pair 52 49 4 1 0x41 _ _ (by decide) (by decide) (by decide) (by decide) (by decide)
    (decode_pair 51 51 3 3 0x33 _ _ (by decide) (by decide) (by decide) (by decide) (by decide)
    (decode_pair 48 48 0 0 0x00 _ _ (by decide) (by decide) (by decide) (by decide) (by decide)
    rfl))))))))))))))))

theorem sample_rom (A B k : Nat) (hk : k < 16) :
    (sampleBytes A B ++ List.replicate (romSize - (sampleBytes A B).length) 0)[k]? =
      (sampleBytes A B)[k]? :=
  List.getElem?_append_left (by simpa [sampleBytes] using hk)

theorem sample_trace_gt (rom ram : List Nat) (A B : Nat) (hAB : B < A) (hram : 0 < ram.length)
    (h0 : rom[0]? = some 0x10) (h1 : rom[1]? = some A) (h2 : rom[2]? = some 0x11) (h3 :
    rom[3]? = some B) (h4 : rom[4]? = some 0xC5) (h5 : rom[5]? = some 0x16) (h6 : rom[6]? =
    some 0x0E) (h7 : rom[7]? = some 0x17) (h8 : rom[8]? = some 0x0D) (h9 : rom[9]? = some
    0xD5) (h11 : rom[11]? = some 0x40) (h12 : rom[12]? = some 0xE6) (h14 : rom[14]? = some
    0x33) (h15 : rom[15]? = some 0x00) :
    mainLoop 14 true ⟨rom, ram, [0, 0, 0, 0, 0, 0, 0, 0, 0, 0, 0, 0, 0, 0, 0, 0], 0, false, 0⟩ =
      .finished ⟨rom, (ram.set 0 A),
          [0, B, 0, A, 0, 0x01, 0x0E, 0x0D, 0, 0, 0, 0, 0, 0, 0, 0], 16, false, 0⟩ := by
  have s1 : DoCycle ⟨rom, ram, [0, 0, 0, 0, 0, 0, 0, 0, 0, 0, 0, 0, 0, 0, 0, 0], 0, false, 0⟩ =
      some (⟨rom, ram, [0, 0, 0, 0, 0, 0, 0, 0, 0, 0, 0, 0, 0, 0, 0, 0], 1, true, 0⟩, true) := by
    simp [DoCycle, h0, wrap16, store, and15, hAB, hram, moveReg, ramAddressReg, jumpReg,
      operation1Reg, operation2Reg]
  have s2 : DoCycle ⟨rom, ram, [0, 0, 0, 0, 0, 0, 0, 0, 0, 0, 0, 0, 0, 0, 0, 0], 1, true, 0⟩ =
      some (⟨rom, ram, [A, 0, 0, 0, 0, 0, 0, 0, 0, 0, 0, 0, 0, 0, 0, 0], 2, false, 0⟩, true) := by
    simp [DoCycle, h1, wrap16, store, and15, hAB, hram, moveReg, ramAddressReg, jumpReg,
      operation1Reg, operation2Reg]
  have s3 : DoCycle ⟨rom, ram, [A, 0, 0, 0, 0, 0, 0, 0, 0, 0, 0, 0, 0, 0, 0, 0], 2, false, 0⟩ =
      some (⟨rom, ram, [A, 0, 0, 0, 0, 0, 0, 0, 0, 0, 0, 0, 0, 0, 0, 0], 3, true, 1⟩, true) := by
    simp [DoCycle, h2, wrap16, store, and15, hAB, hram, moveReg, ramAddressReg, jumpReg,
      operation1Reg, operation2Reg]
  have s4 : DoCycle ⟨rom, ram, [A, 0, 0, 0, 0, 0, 0, 0, 0, 0, 0, 0, 0, 0, 0, 0], 3, true, 1⟩ =
      some (⟨rom, ram, [A, B, 0, 0, 0, 0, 0, 0, 0, 0, 0, 0, 0, 0, 0, 0], 4, false, 0⟩, true) := by
    simp [DoCycle, h3, wrap16, store, and15, hAB, hram, moveReg, ramAddressReg, jumpReg,
      operation1Reg, operation2Reg]
  have s5 : DoCycle ⟨rom, ram, [A, B, 0, 0, 0, 0, 0, 0, 0, 0, 0, 0, 0, 0, 0, 0], 4, false, 0⟩ =
      some (⟨rom, ram,
          [A, B, 0, 0, 0, 0x01, 0, 0, 0, 0, 0, 0, 0, 0, 0, 0], 5, false, 5⟩, true) := by
    simp [DoCycle, h4, wrap16, store, and15, hAB, hram, moveReg, ramAddressReg, jumpReg,
      operation1Reg, operation2Reg]
  have s6 : DoCycle ⟨rom, ram, [A, B, 0, 0, 0, 0x01, 0, 0, 0, 0, 0, 0, 0, 0, 0, 0], 5, false, 5⟩ =
      some (⟨rom, ram, [A, B, 0, 0, 0, 0x01, 0, 0, 0, 0, 0, 0, 0, 0, 0, 0], 6, true, 6⟩, true) := by
    simp [DoCycle, h5, wrap16, store, and15, hAB, hram, moveReg, ramAddressReg, jumpReg,
      operation1Reg, operation2Reg]
  have s7 : DoCycle ⟨rom, ram, [A, B, 0, 0, 0, 0x01, 0, 0, 0, 0, 0, 0, 0, 0, 0, 0], 6, true, 6⟩ =
      some (⟨rom, ram,
          [A, B, 0, 0, 0, 0x01, 0x0E, 0, 0, 0, 0, 0, 0, 0, 0, 0], 7, false, 0⟩, true) := by
    simp [DoCycle, h6, wrap16, store, and15, hAB, hram, moveReg, ramAddressReg, jumpReg,
      operation1Reg, operation2Reg]
  have s8 : DoCycle ⟨rom, ram,
      [A, B, 0, 0, 0, 0x01, 0x0E, 0, 0, 0, 0, 0, 0, 0, 0, 0], 7, false, 0⟩ =
      some (⟨rom, ram,
          [A, B, 0, 0, 0, 0x01, 0x0E, 0, 0, 0, 0, 0, 0, 0, 0, 0], 8, true, 7⟩, true) := by
    simp [DoCycle, h7, wrap16, store, and15, hAB, hram, moveReg, ramAddressReg, jumpReg,
      operation1Reg, operation2Reg]
  have s9 : DoCycle ⟨rom, ram, [A, B, 0, 0, 0, 0x01, 0x0E, 0, 0, 0, 0, 0, 0, 0, 0, 0], 8, true, 7⟩ =
      some (⟨rom, ram,
          [A, B, 0, 0, 0, 0x01, 0x0E, 0x0D, 0, 0, 0, 0, 0, 0, 0, 0], 9, false, 0⟩, true) := by
    simp [DoCycle, h8, wrap16, store, and15, hAB, hram, moveReg, ramAddressReg, jumpReg,
      operation1Reg, operation2Reg]
  have s10 : DoCycle ⟨rom, ram,
      [A, B, 0, 0, 0, 0x01, 0x0E, 0x0D, 0, 0, 0, 0, 0, 0, 0, 0], 9, false, 0⟩ =
      some (⟨rom, ram,
          [A, B, 0, 0, 0, 0x01, 0x0E, 0x0D, 0, 0, 0, 0, 0, 0, 0, 0], 11, false, 5⟩, true) := by
    simp [DoCycle, h9, wrap16, store, and15, hAB, hram, moveReg, ramAddressReg, jumpReg,
      operation1Reg, operation2Reg]
  have s11 : DoCycle ⟨rom, ram,
      [A, B, 0, 0, 0, 0x01, 0x0E, 0x0D, 0, 0, 0, 0, 0, 0, 0, 0], 11, false, 5⟩ =
      some (⟨rom, ram,
          [0, B, 0, A, 0, 0x01, 0x0E, 0x0D, 0, 0, 0, 0, 0, 0, 0, 0], 12, false, 0⟩, true) := by
    simp [DoCycle, h11, wrap16, store, and15, hAB, hram, moveReg, ramAddressReg, jumpReg,
      operation1Reg, operation2Reg]
  have s12 : DoCycle ⟨rom, ram,
      [0, B, 0, A, 0, 0x01, 0x0E, 0x0D, 0, 0, 0, 0, 0, 0, 0, 0], 12, false, 0⟩ =
      some (⟨rom, ram,
          [0, B, 0, A, 0, 0x01, 0x0E, 0x0D, 0, 0, 0, 0, 0, 0, 0, 0], 14, false, 6⟩, true) := by
    simp [DoCycle, h12, wrap16, store, and15, hAB, hram, moveReg, ramAddressReg, jumpReg,
      operation1Reg, operation2Reg]
  have s13 : DoCycle ⟨rom, ram,
      [0, B, 0, A, 0, 0x01, 0x0E, 0x0D, 0, 0, 0, 0, 0, 0, 0, 0], 14, false, 6⟩ =
      some (⟨rom, (ram.set 0 A),
          [0, B, 0, A, 0, 0x01, 0x0E, 0x0D, 0, 0, 0, 0, 0, 0, 0, 0], 15, false, 3⟩, true) := by
    simp [DoCycle, h14, wrap16, store, and15, hAB, hram, moveReg, ramAddressReg, jumpReg,
      operation1Reg, operation2Reg]
  have s14 : DoCycle ⟨rom, (ram.set 0 A),
      [0, B, 0, A, 0, 0x01, 0x0E, 0x0D, 0, 0, 0, 0, 0, 0, 0, 0], 15, false, 3⟩ =
      some (⟨rom, (ram.set 0 A),
          [0, B, 0, A, 0, 0x01, 0x0E, 0x0D, 0, 0, 0, 0, 0, 0, 0, 0], 16, false, 0⟩, false) := by
    simp [DoCycle, h15, wrap16, store, and15, hAB, hram, moveReg, ramAddressReg, jumpReg,
      operation1Reg, operation2Reg]
  exact (mainLoop_step 13 _ _ _ (by norm_num) s1).trans
    ((mainLoop_step 12 _ _ _ (by norm_num) s2).trans
    ((mainLoop_step 11 _ _ _ (by norm_num) s3).trans
    ((mainLoop_step 10 _ _ _ (by norm_num) s4).trans
    ((mainLoop_step 9 _ _ _ (by norm_num) s5).trans
    ((mainLoop_step 8 _ _ _ (by norm_num) s6).trans
    ((mainLoop_step 7 _ _ _ (by norm_num) s7).trans
    ((mainLoop_step 6 _ _ _ (by norm_num) s8).trans
    ((mainLoop_step 5 _ _ _ (by norm_num) s9).trans
    ((mainLoop_step 4 _ _ _ (by norm_num) s10).trans
    ((mainLoop_step 3 _ _ _ (by norm_num) s11).trans
    ((mainLoop_step 2 _ _ _ (by norm_num) s12).trans
    ((mainLoop_step 1 _ _ _ (by norm_num) s13).trans
    ((mainLoop_step 0 _ _ _ (by norm_num) s14).trans
    (mainLoop_stop 0 _))))))))))))))

theorem sample_trace_le (rom ram : List Nat) (A B : Nat) (hAB : ¬ B < A) (hram : 0 < ram.length)
    (h0 : rom[0]? = some 0x10) (h1 : rom[1]? = some A) (h2 : rom[2]? = some 0x11) (h3 :
    rom[3]? = some B) (h4 : rom[4]? = some 0xC5) (h5 : rom[5]? = some 0x16) (h6 : rom[6]? =
    some 0x0E) (h7 : rom[7]? = some 0x17) (h8 : rom[8]? = some 0x0D) (h9 : rom[9]? = some
    0xD5) (h10 : rom[10]? = some 0xE7) (h13 : rom[13]? = some 0x41) (h14 : rom[14]? = some
    0x33) (h15 : rom[15]? = some 0x00) :
    mainLoop 14 true ⟨rom, ram, [0, 0, 0, 0, 0, 0, 0, 0, 0, 0, 0, 0, 0, 0, 0, 0], 0, false, 0⟩ =
      .finished ⟨rom, (ram.set 0 B),
          [A, 0, 0, B, 0, 0, 0x0E, 0x0D, 0, 0, 0, 0, 0, 0, 0, 0], 16, false, 0⟩ := by
  have s1 : DoCycle ⟨rom, ram, [0, 0, 0, 0, 0, 0, 0, 0, 0, 0, 0, 0, 0, 0, 0, 0], 0, false, 0⟩ =
      some (⟨rom, ram, [0, 0, 0, 0, 0, 0, 0, 0, 0, 0, 0, 0, 0, 0, 0, 0], 1, true, 0⟩, true) := by
    simp [DoCycle, h0, wrap16, store, and15, hAB, hram, moveReg, ramAddressReg, jumpReg,
      operation1Reg, operation2Reg]
  have s2 : DoCycle ⟨rom, ram, [0, 0, 0, 0, 0, 0, 0, 0, 0, 0, 0, 0, 0, 0, 0, 0], 1, true, 0⟩ =
      some (⟨rom, ram, [A, 0, 0, 0, 0, 0, 0, 0, 0, 0, 0, 0, 0, 0, 0, 0], 2, false, 0⟩, true) := by
    simp [DoCycle, h1, wrap16, store, and15, hAB, hram, moveReg, ramAddressReg, jumpReg,
      operation1Reg, operation2Reg]
  have s3 : DoCycle ⟨rom, ram, [A, 0, 0, 0, 0, 0, 0, 0, 0, 0, 0, 0, 0, 0, 0, 0], 2, false, 0⟩ =
      some (⟨rom, ram, [A, 0, 0, 0, 0, 0, 0, 0, 0, 0, 0, 0, 0, 0, 0, 0], 3, true, 1⟩, true) := by
    simp [DoCycle, h2, wrap16, store, and15, hAB, hram, moveReg, ramAddressReg, jumpReg,
      operation1Reg, operation2Reg]
  have s4 : DoCycle ⟨rom, ram, [A, 0, 0, 0, 0, 0, 0, 0, 0, 0, 0, 0, 0, 0, 0, 0], 3, true, 1⟩ =
      some (⟨rom, ram, [A, B, 0, 0, 0, 0, 0, 0, 0, 0, 0, 0, 0, 0, 0, 0], 4, false, 0⟩, true) := by
    simp [DoCycle, h3, wrap16, store, and15, hAB, hram, moveReg, ramAddressReg, jumpReg,
      operation1Reg, operation2Reg]
  have s5 : DoCycle ⟨rom, ram, [A, B, 0, 0, 0, 0, 0, 0, 0, 0, 0, 0, 0, 0, 0, 0], 4, false, 0⟩ =
      some (⟨rom, ram, [A, B, 0, 0, 0, 0, 0, 0, 0, 0, 0, 0, 0, 0, 0, 0], 5, false, 5⟩, true) := by
    simp [DoCycle, h4, wrap16, store, and15, hAB, hram, moveReg, ramAddressReg, jumpReg,
      operation1Reg, operation2Reg]
  have s6 : DoCycle ⟨rom, ram, [A, B, 0, 0, 0, 0, 0, 0, 0, 0, 0, 0, 0, 0, 0, 0], 5, false, 5⟩ =
      some (⟨rom, ram, [A, B, 0, 0, 0, 0, 0, 0, 0, 0, 0, 0, 0, 0, 0, 0], 6, true, 6⟩, true) := by
    simp [DoCycle, h5, wrap16, store, and15, hAB, hram, moveReg, ramAddressReg, jumpReg,
      operation1Reg, operation2Reg]
  have s7 : DoCycle ⟨rom, ram, [A, B, 0, 0, 0, 0, 0, 0, 0, 0, 0, 0, 0, 0, 0, 0], 6, true, 6⟩ =
      some (⟨rom, ram,
          [A, B, 0, 0, 0, 0, 0x0E, 0, 0, 0, 0, 0, 0, 0, 0, 0], 7, false, 0⟩, true) := by
    simp [DoCycle, h6, wrap16, store, and15, hAB, hram, moveReg, ramAddressReg, jumpReg,
      operation1Reg, operation2Reg]
  have s8 : DoCycle ⟨rom, ram, [A, B, 0, 0, 0, 0, 0x0E, 0, 0, 0, 0, 0, 0, 0, 0, 0], 7, false, 0⟩ =
      some (⟨rom, ram, [A, B, 0, 0, 0, 0, 0x0E, 0, 0, 0, 0, 0, 0, 0, 0, 0], 8, true, 7⟩, true) := by
    simp [DoCycle, h7, wrap16, store, and15, hAB, hram, moveReg, ramAddressReg, jumpReg,
      operation1Reg, operation2Reg]
  have s9 : DoCycle ⟨rom, ram, [A, B, 0, 0, 0, 0, 0x0E, 0, 0, 0, 0, 0, 0, 0, 0, 0], 8, true, 7⟩ =
      some (⟨rom, ram,
          [A, B, 0, 0, 0, 0, 0x0E, 0x0D, 0, 0, 0, 0, 0, 0, 0, 0], 9, false, 0⟩, true) := by
    simp [DoCycle, h8, wrap16, store, and15, hAB, hram, moveReg, ramAddressReg, jumpReg,
      operation1Reg, operation2Reg]
  have s10 : DoCycle ⟨rom, ram,
      [A, B, 0, 0, 0, 0, 0x0E, 0x0D, 0, 0, 0, 0, 0, 0, 0, 0], 9, false, 0⟩ =
      some (⟨rom, ram,
          [A, B, 0, 0, 0, 0, 0x0E, 0x0D, 0, 0, 0, 0, 0, 0, 0, 0], 10, false, 5⟩, true) := by
    simp [DoCycle, h9, wrap16, store, and15, hAB, hram, moveReg, ramAddressReg, jumpReg,
      operation1Reg, operation2Reg]
  have s11 : DoCycle ⟨rom, ram,
      [A, B, 0, 0, 0, 0, 0x0E, 0x0D, 0, 0, 0, 0, 0, 0, 0, 0], 10, false, 5⟩ =
      some (⟨rom, ram,
          [A, B, 0, 0, 0, 0, 0x0E, 0x0D, 0, 0, 0, 0, 0, 0, 0, 0], 13, false, 7⟩, true) := by
    simp [DoCycle, h10, wrap16, store, and15, hAB, hram, moveReg, ramAddressReg, jumpReg,
      operation1Reg, operation2Reg]
  have s12 : DoCycle ⟨rom, ram,
      [A, B, 0, 0, 0, 0, 0x0E, 0x0D, 0, 0, 0, 0, 0, 0, 0, 0], 13, false, 7⟩ =
      some (⟨rom, ram,
          [A, 0, 0, B, 0, 0, 0x0E, 0x0D, 0, 0, 0, 0, 0, 0, 0, 0], 14, false, 1⟩, true) := by
    simp [DoCycle, h13, wrap16, store, and15, hAB, hram, moveReg, ramAddressReg, jumpReg,
      operation1Reg, operation2Reg]
  have s13 : DoCycle ⟨rom, ram,
      [A, 0, 0, B, 0, 0, 0x0E, 0x0D, 0, 0, 0, 0, 0, 0, 0, 0], 14, false, 1⟩ =
      some (⟨rom, (ram.set 0 B),
          [A, 0, 0, B, 0, 0, 0x0E, 0x0D, 0, 0, 0, 0, 0, 0, 0, 0], 15, false, 3⟩, true) := by
    simp [DoCycle, h14, wrap16, store, and15, hAB, hram, moveReg, ramAddressReg, jumpReg,
      operation1Reg, operation2Reg]
  have s14 : DoCycle ⟨rom, (ram.set 0 B),
      [A, 0, 0, B, 0, 0, 0x0E, 0x0D, 0, 0, 0, 0, 0, 0, 0, 0], 15, false, 3⟩ =
      some (⟨rom, (ram.set 0 B),
          [A, 0, 0, B, 0, 0, 0x0E, 0x0D, 0, 0, 0, 0, 0, 0, 0, 0], 16, false, 0⟩, false) := by
    simp [DoCycle, h15, wrap16, store, and15, hAB, hram, moveReg, ramAddressReg, jumpReg,
      operation1Reg, operation2Reg]
  exact (mainLoop_step 13 _ _ _ (by norm_num) s1).trans
    ((mainLoop_step 12 _ _ _ (by norm_num) s2).trans
    ((mainLoop_step 11 _ _ _ (by norm_num) s3).trans
    ((mainLoop_step 10 _ _ _ (by norm_num) s4).trans
    ((mainLoop_step 9 _ _ _ (by norm_num) s5).trans
    ((mainLoop_step 8 _ _ _ (by norm_num) s6).trans
    ((mainLoop_step 7 _ _ _ (by norm_num) s7).trans
    ((mainLoop_step 6 _ _ _ (by norm_num) s8).trans
    ((mainLoop_step 5 _ _ _ (by norm_num) s9).trans
    ((mainLoop_step 4 _ _ _ (by norm_num) s10).trans
    ((mainLoop_step 3 _ _ _ (by norm_num) s11).trans
    ((mainLoop_step 2 _ _ _ (by norm_num) s12).trans
    ((mainLoop_step 1 _ _ _ (by norm_num) s13).trans
    ((mainLoop_step 0 _ _ _ (by norm_num) s14).trans
    (mainLoop_stop 0 _))))))))))))))

theorem sample_new (A B : Nat) (hA : A < 256) (hB : B < 256) :
    new (sampleProgram A B) =
      .ok (exampleCore (sampleBytes A B ++
        List.replicate (romSize - (sampleBytes A B).length) 0) (List.replicate 16 0)) :=
  new_exampleCore (sampleProgram A B) (sampleBytes A B) (sample_decode A B hA hB)
    (by show 16 ≤ romSize; decide)

/-- C19. For all bytes `A` and `B`, `new` accepts the string of the sample
program of `main` written with `A` and `B`, and the driver loop of `main` on the
core ends after 14 cycles, none of which faults, the last one returning false
on the byte `00` at address 15. Then `getRegister(3)` returns the greater of `A`
and `B`, and so does the memory cell 0. -/
theorem sample_program_max (A B : Nat) (hA : A < 256) (hB : B < 256) :
    ∃ c c1, new (sampleProgram A B) = .ok c ∧ mainLoop 14 true c = .finished c1 ∧
      c1.pointer = 16 ∧ getRegister c1 3 = some (max A B) ∧ c1.ram[0]? = some (max A B) := by
  have hrom : ∀ k, k < 16 →
      (sampleBytes A B ++ List.replicate (romSize - (sampleBytes A B).length) 0)[k]? =
        (sampleBytes A B)[k]? := fun k hk => sample_rom A B k hk
  have hram : 0 < (List.replicate 256 0).length := by rw [List.length_replicate]; decide
  by_cases hAB : B < A
  · have hrun := sample_trace_gt _ (List.replicate 256 0) A B hAB hram
      (hrom 0 (by decide)) (hrom 1 (by decide)) (hrom 2 (by decide)) (hrom 3 (by decide)) (hrom 4 (by decide)) (hrom 5 (by decide)) (hrom 6 (by decide)) (hrom 7 (by decide)) (hrom 8 (by decide)) (hrom 9 (by decide)) (hrom 11 (by decide)) (hrom 12 (by decide)) (hrom 14 (by decide)) (hrom 15 (by decide))
    refine ⟨_, _, sample_new A B hA hB, hrun, rfl, ?_, ?_⟩
    · rw [Nat.max_eq_left (Nat.le_of_lt hAB)]
      rfl
    · rw [Nat.max_eq_left (Nat.le_of_lt hAB)]
      exact List.getElem?_set_self hram
  · have hrun := sample_trace_le _ (List.replicate 256 0) A B hAB hram
      (hrom 0 (by decide)) (hrom 1 (by decide)) (hrom 2 (by decide)) (hrom 3 (by decide)) (hrom 4 (by decide)) (hrom 5 (by decide)) (hrom 6 (by decide)) (hrom 7 (by decide)) (hrom 8 (by decide)) (hrom 9 (by decide)) (hrom 10 (by decide)) (hrom 13 (by decide)) (hrom 14 (by decide)) (hrom 15 (by decide))
    refine ⟨_, _, sample_new A B hA hB, hrun, rfl, ?_, ?_⟩
    · rw [Nat.max_eq_right (Nat.le_of_not_lt hAB)]
      rfl
    · rw [Nat.max_eq_right (Nat.le_of_not_lt hAB)]
      exact List.getElem?_set_self hram

/-- The theorem `sample_program_max` at the numbers `0xFF` and `0xF0` of
`main`, whose string is `10FF11F0C5160E170DD5E740E6413300`: register 3 and the
memory cell 0 end with `0xFF`. -/
theorem sample_program_max_witness :
    sampleProgram 0xFF 0xF0 = ascii "10FF11F0C5160E170DD5E740E6413300" ∧
    ∃ c c1, new (sampleProgram 0xFF 0xF0) = .ok c ∧ mainLoop 14 true c = .finished c1 ∧
      c1.pointer = 16 ∧ getRegister c1 3 = some 0xFF ∧ c1.ram[0]? = some 0xFF :=
  ⟨by decide, sample_program_max 0xFF 0xF0 (by decide) (by decide)⟩

/-! ## The capacity message -/

theorem xor_message : toString (2 ^^^ 16 : Nat) = "18" := by decide

theorem validHex_zeros (n : Nat) (h : n % 2 = 0) : ValidHex (List.replicate n 48) :=
  ⟨by rw [List.length_replicate]; exact h,
    fun b hb => by rw [List.eq_of_mem_replicate hb]; decide⟩

/-- C20. For a string of hexadecimal digits of even length that decodes to `N`
bytes, `N` above 65,536, the error `new` returns carries the message
`Provided rom with size of N is bigger than max allowed 18`, with `N` in
decimal: the maximum printed is the value 18 of the Go expression `2^16`, an
exclusive or, and not the 65,536 of `romSize` that the size was compared to. -/
theorem capacity_message (s : List Nat) (h : ValidHex s) (hN : 65536 < s.length / 2) :
    new s = .error (.capacity ("Provided rom with size of " ++ toString (s.length / 2) ++
      " is bigger than max allowed 18")) ∧
    (2 ^^^ 16 : Nat) = 18 ∧ romSize = 65536 := by
  obtain ⟨data, hd, hl, -⟩ := decodeString_ok s h
  have hlen : data.length = s.length / 2 := by omega
  refine ⟨?_, by decide, rfl⟩
  simp only [new, hd]
  rw [if_pos (by rw [hlen]; exact hN), xor_message, hlen, String.append_assoc]
  have e : " is bigger than max allowed " ++ "18" = " is bigger than max allowed 18" := by
    decide
  rw [e]

/-- The theorem `capacity_message` at a string of 131,074 digits `0`, which
decodes to 65,537 bytes. -/
theorem capacity_message_witness :
    new (List.replicate 131074 48) = .error (.capacity
      "Provided rom with size of 65537 is bigger than max allowed 18") := by
  have h := (capacity_message (List.replicate 131074 48) (validHex_zeros 131074 (by decide))
    (by rw [List.length_replicate]; decide)).1
  rw [List.length_replicate] at h
  exact h

end Cpu
